import Mathlib

/-!
Shallow embedding of the SSE-delta streaming pipeline of the
Teams/Snowflake bot (source file `part_006`): the live streaming decoder
`processStreamingResponse`, the buffered fallback decoder `parseSSEResponse`,
the synthesizer `formatCortexAgentsResponse`, the CSV renderer `generateCSV` /
`escapeCSVField`, the simplified CSV reader `parseCSVToJSON`, and the
entry-point control flow `callCortexAgentsAPI` / `queryWithCortexAgents` /
`fallbackToBasicQuery`.

JavaScript strings are modelled as `List Char`.  External capabilities
(`JSON.parse` on delta payloads and chart specs, `executeQuery`, the token
provider, the agent-configuration lookup, HTTP transport) are parameters of
the embedding, exactly as the spec treats them.  Timestamps and logging
side-effects are not modelled, except that `console.warn` diagnostics emitted
on per-frame parse failures are counted, since one claim mentions them.
-/

namespace CortexBot

/-- Characters of a JavaScript string. -/
abbrev Str := List Char

/-- The JavaScript `\s` class as it matters for `trim()` and `data:`-line
extraction, restricted to the ASCII whitespace that occurs in SSE text. -/
def isWSChar (c : Char) : Bool := c == ' ' || c == '\t' || c == '\n' || c == '\r'

/-- JavaScript regex line terminators (`.` does not match these). -/
def isLineTermChar (c : Char) : Bool := c == '\n' || c == '\r'

/-- `String.prototype.trim()`. -/
def trimChars (s : Str) : Str :=
  ((s.dropWhile isWSChar).reverse.dropWhile isWSChar).reverse

/-- Whether the text contains the SSE event separator `"\n\n"`. -/
def hasNN : Str → Bool
  | [] => false
  | [_] => false
  | a :: b :: rest => (a == '\n' && b == '\n') || hasNN (b :: rest)

/-- `text.split("\n\n")`: greedy left-to-right split on the two-character
event separator, as JavaScript `String.prototype.split` performs it. -/
def splitNN : Str → List Str
  | [] => [[]]
  | [c] => [[c]]
  | a :: b :: rest =>
    if a == '\n' && b == '\n' then [] :: splitNN rest
    else
      match splitNN (b :: rest) with
      | [] => [[a]]
      | s :: ss => (a :: s) :: ss

/-- JSON values, as delivered by the platform `JSON.parse`.  Objects keep
their fields in insertion order, as JavaScript objects do for string keys. -/
inductive Json where
  | null
  | bool (b : Bool)
  | num (n : Int)
  | str (s : Str)
  | arr (elems : List Json)
  | obj (fields : List (Str × Json))

/-- JavaScript property access `v.k` on a parsed JSON value. -/
def Json.getField : Json → Str → Option Json
  | .obj fs, k => fs.lookup k
  | _, _ => none

/-- JavaScript truthiness of a JSON value. -/
def Json.truthy : Json → Bool
  | .null => false
  | .bool b => b
  | .num n => !(n == 0)
  | .str s => !s.isEmpty
  | .arr _ => true
  | .obj _ => true

/-- `Array.isArray`. -/
def Json.isArr : Json → Bool
  | .arr _ => true
  | _ => false

/-- Reading a field that the code then uses as a (truthy) string, e.g.
`result.json.sql` (which is subsequently given to `sql.trim()`) and
`result.json.text`.  Returns the string when the field is present, a string,
and truthy; `none` otherwise. -/
def Json.strField (v : Json) (k : Str) : Option Str :=
  match v.getField k with
  | some (.str s) => if s.isEmpty then none else some s
  | _ => none

/-- The value of a `thinking` content item: the source may receive it as a
string or as an object carrying one of several text fields; `jsonRender`
stands for `JSON.stringify(thinking, null, 2)` of the whole object. -/
inductive ThinkingVal where
  | strVal (t : Str)
  | objVal (text content message : Option Str) (jsonRender : Str)

/-- JavaScript truthiness of `content.thinking` (an object is always truthy,
a string only when non-empty). -/
def ThinkingVal.truthy : ThinkingVal → Bool
  | .strVal t => !t.isEmpty
  | .objVal _ _ _ _ => true

/-- `a || b` on an optional string field (absent and `""` are falsy). -/
def orElseStr (a : Option Str) (b : Str) : Str :=
  match a with
  | some s => if s.isEmpty then b else s
  | none => b

/-- Thinking-text extraction:
`thinking.text || thinking.content || thinking.message ||
 JSON.stringify(thinking, null, 2)` for objects, identity for strings. -/
def ThinkingVal.extract : ThinkingVal → Str
  | .strVal t => t
  | .objVal t c m render => orElseStr t (orElseStr c (orElseStr m render))

/-- One entry of a `tool_results.content` array. -/
inductive ResItem where
  /-- `{type: "json", json: v}`; `jsonVal = none` models an absent/falsy
  `json` field (`result.json` fails the truthiness guard). -/
  | jsonItem (jsonVal : Option Json)
  /-- `{type: "text/csv", text: t}`. -/
  | csvItem (text : Str)
  /-- A result entry of any other `type`. -/
  | otherItem

/-- `content.tool_use`: the code only reads `.name`. -/
structure ToolUseObj where
  name : Option Str

/-- `content.tool_results`: the code only reads `.content`. -/
structure ToolResultsObj where
  content : Option (List ResItem)

/-- `content.chart`: the code only reads `.chart_spec` (a serialized JSON
string when present). -/
structure ChartObj where
  chart_spec : Option Str

/-- One item of a delta's `content` array, discriminated on `content.type`
exactly as the two routing switches do.  Option fields model absent object
properties. -/
inductive ContentItem where
  | textItem (text : Option Str)
  | toolUseItem (tool_use : Option ToolUseObj)
  | toolResultsItem (tool_results : Option ToolResultsObj)
  | chartItem (chart : Option ChartObj)
  | thinkingItem (thinking : Option ThinkingVal)
  | otherItem (tag : Str)

/-- The projection of `JSON.parse(dataMatch[1])` that the decoders use:
`deltaData.id`, `deltaData.object`, and `deltaData.delta?.content`
(`content = none` when `delta` or `delta.content` is absent). -/
structure DeltaPayload where
  id : Str
  object : Str
  content : Option (List ContentItem)

/-- The external `JSON.parse` applied to a `data:` payload, projected to the
fields the decoders read; `none` models a thrown `SyntaxError`. -/
abbrev PayloadParser := Str → Option DeltaPayload

/-- The individual delta record handed to the `onDelta` callback (its
`timestamp` field, a capture-time instant, is not modelled). -/
structure SDelta where
  deltaIndex : Nat
  content : List ContentItem
  metaId : Str
  metaObject : Str

/-- One invocation of the caller-supplied `onDelta` callback. -/
inductive CallbackEvent where
  | deltaEvent (d : SDelta)
  | completionEvent (totalDeltas : Nat)

/-- The capture attempt of the regex `/data:\s*(.+)/` at one occurrence of
`"data:"`: `t` is the text following the marker.  Greedy `\s*` consumes the
maximal whitespace run; if a character remains, `(.+)` captures up to the next
line terminator.  Otherwise the engine backtracks inside the whitespace run:
the rightmost character that is not a line terminator starts a one-character
capture; if every remaining character is a line terminator the occurrence
fails. -/
def attemptAt (t : Str) : Option Str :=
  match t.dropWhile isWSChar with
  | c :: rest => some ((c :: rest).takeWhile (fun ch => !isLineTermChar ch))
  | [] =>
    match t.reverse.dropWhile isLineTermChar with
    | [] => none
    | ch :: _ => some [ch]

/-- `event.match(/data:\s*(.+)/)`: scan left to right for an occurrence of
`"data:"` whose capture attempt succeeds; `none` models a null match. -/
def matchData : Str → Option Str
  | [] => none
  | c :: rest =>
    if "data:".toList.isPrefixOf (c :: rest) then
      match attemptAt ((c :: rest).drop 5) with
      | some cap => some cap
      | none => matchData rest
    else matchData rest

/-- The running aggregates of `processStreamingResponse` (live path). -/
structure LiveAgg where
  combinedContent : Str
  thinkingContent : Str
  hasThinking : Bool
  toolResults : List ContentItem
  charts : List ContentItem

def LiveAgg.init : LiveAgg := ⟨[], [], false, [], []⟩

/-- The live path's per-item routing switch (`processStreamingResponse`,
content loop).  `includeThinking` is `process.env.INCLUDE_AGENT_THINKING ===
'true'`.  Both `tool_use` and `tool_results` items are pushed verbatim onto
the same `toolResults` array. -/
def liveRoute (includeThinking : Bool) (agg : LiveAgg) (c : ContentItem) : LiveAgg :=
  match c with
  | .textItem t => { agg with combinedContent := agg.combinedContent ++ orElseStr t [] }
  | .toolUseItem _ => { agg with toolResults := agg.toolResults ++ [c] }
  | .toolResultsItem _ => { agg with toolResults := agg.toolResults ++ [c] }
  | .chartItem _ => { agg with charts := agg.charts ++ [c] }
  | .thinkingItem th =>
    match th with
    | some tv =>
      if tv.truthy then
        if includeThinking then
          { agg with thinkingContent := agg.thinkingContent ++ tv.extract,
                     hasThinking := true }
        else agg
      else agg
    | none => agg
  | .otherItem _ => agg

def routeLiveAll (includeThinking : Bool) (agg : LiveAgg) (cs : List ContentItem) : LiveAgg :=
  cs.foldl (liveRoute includeThinking) agg

/-- The running aggregates of `parseSSEResponse` (buffered fallback path).
Unlike the live path, `tool_use` occupies a single last-wins slot. -/
structure ParseAgg where
  textContent : Str
  toolUse : Option ContentItem
  toolResults : List ContentItem
  charts : List ContentItem
  thinkingContent : Str
  hasThinking : Bool

def ParseAgg.init : ParseAgg := ⟨[], none, [], [], [], false⟩

/-- The fallback path's per-item routing switch (`parseSSEResponse`,
content loop). -/
def parseRoute (includeThinking : Bool) (agg : ParseAgg) (c : ContentItem) : ParseAgg :=
  match c with
  | .textItem t => { agg with textContent := agg.textContent ++ orElseStr t [] }
  | .toolUseItem _ => { agg with toolUse := some c }
  | .toolResultsItem _ => { agg with toolResults := agg.toolResults ++ [c] }
  | .chartItem _ => { agg with charts := agg.charts ++ [c] }
  | .thinkingItem th =>
    match th with
    | some tv =>
      if tv.truthy then
        if includeThinking then
          { agg with thinkingContent := agg.thinkingContent ++ tv.extract,
                     hasThinking := true }
        else agg
      else agg
    | none => agg
  | .otherItem _ => agg

def routeParseAll (includeThinking : Bool) (agg : ParseAgg) (cs : List ContentItem) : ParseAgg :=
  cs.foldl (parseRoute includeThinking) agg

/-- The argument of `formatCortexAgentsResponse`: a (combined) delta. -/
structure CombinedDelta where
  content : List ContentItem

/-- The combined delta the live path builds at stream end: accumulated text
(when non-empty), then every tool item in arrival order, then charts. -/
def liveCombined (agg : LiveAgg) : CombinedDelta :=
  ⟨(if agg.combinedContent.isEmpty then [] else [.textItem (some agg.combinedContent)])
      ++ agg.toolResults ++ agg.charts⟩

/-- The combined delta content the fallback path builds: accumulated text
(when non-empty), then the single retained `tool_use` (if any), then the
`tool_results` items, then charts. -/
def parseCombinedContent (agg : ParseAgg) : List ContentItem :=
  (if agg.textContent.isEmpty then [] else [.textItem (some agg.textContent)])
    ++ (match agg.toolUse with | some u => [u] | none => [])
    ++ agg.toolResults ++ agg.charts

/-- The separate reasoning message both paths build from accumulated
thinking text. -/
def thinkingMessageOf (thinkingContent : Str) : CombinedDelta :=
  ⟨[.textItem (some ("**🤔 Agent Reasoning:**\n".toList ++ thinkingContent))]⟩

/-- `String.prototype.includes`. -/
def containsSub (pat s : Str) : Bool := decide (pat <:+: s)

/-- `"event: message.delta"`. -/
def mdMarker : Str := "event: message.delta".toList

/-- `"data:"`. -/
def dataMarker : Str := "data:".toList

/-- `"event: done"`. -/
def doneMarker : Str := "event: done".toList

/-- The event-processing state of `processStreamingResponse`'s chunk
handler (everything except the growing buffer, which event processing never
touches): the `deltaIndex` counter, the running aggregates, the `onDelta`
invocations so far, and the number of `console.warn` diagnostics emitted for
unparsable frames. -/
structure StreamCore where
  deltaIndex : Nat
  agg : LiveAgg
  callbackEvents : List CallbackEvent
  warnings : Nat

def StreamCore.init : StreamCore := ⟨0, .init, [], 0⟩

/-- The full mutable state of the chunk handler: the buffer plus the
event-processing state. -/
structure StreamState where
  buffer : Str
  core : StreamCore

def StreamState.init : StreamState := ⟨[], .init⟩

/-- Processing of one complete event fragment by the live path
(`processStreamingResponse`, body of the `for` loop).  A fragment is relevant
when its trim is non-empty and it contains both markers; `deltaIndex` is then
incremented inside the `try` before the payload is parsed, so a fragment whose
JSON is corrupt still consumes an index slot (the `catch` only logs).  The
`onDelta` callback receives the delta built from a successful parse;
exceptions it throws are swallowed, so it is modelled as pure recording. -/
def processEvent (P : PayloadParser) (includeThinking : Bool)
    (st : StreamCore) (ev : Str) : StreamCore :=
  if !(trimChars ev).isEmpty && containsSub mdMarker ev && containsSub dataMarker ev then
    let idx := st.deltaIndex + 1
    match matchData ev with
    | none => { st with deltaIndex := idx }
    | some payload =>
      match P payload with
      | none => { st with deltaIndex := idx, warnings := st.warnings + 1 }
      | some pd =>
        let d : SDelta := ⟨idx, pd.content.getD [], pd.id, pd.object⟩
        { st with
            deltaIndex := idx,
            callbackEvents := st.callbackEvents ++ [.deltaEvent d],
            agg :=
              match pd.content with
              | some cs => routeLiveAll includeThinking st.agg cs
              | none => st.agg }
  else st

/-- One `data` event of the live stream: append the chunk to the buffer,
split on the event separator, retain the last (possibly incomplete) fragment
as the new buffer, and process the fully-formed fragments in order. -/
def feedChunk (P : PayloadParser) (includeThinking : Bool)
    (st : StreamState) (chunk : Str) : StreamState :=
  let parts := splitNN (st.buffer ++ chunk)
  ⟨parts.getLastD [], parts.dropLast.foldl (processEvent P includeThinking) st.core⟩

/-- The live decoder run over a sequence of arriving chunks. -/
def runChunks (P : PayloadParser) (includeThinking : Bool)
    (chunks : List Str) : StreamState :=
  chunks.foldl (feedChunk P includeThinking) .init

/-- The state of `parseSSEResponse`'s event loop. -/
structure ParseState where
  agg : ParseAgg
  deltas : List SDelta
  callbackEvents : List CallbackEvent
  deltaCount : Nat
  warnings : Nat

def ParseState.init : ParseState := ⟨.init, [], [], 0, 0⟩

/-- Processing of one event by the buffered fallback path
(`parseSSEResponse`, body of the `for` loop).  Differences from the live
path: `deltaCount` is incremented only after the `data:` capture succeeds
(but still before `JSON.parse`, so a corrupt payload consumes an index slot
here too); successfully parsed deltas are also collected into `deltas`; an
`event: done` fragment triggers a completion callback carrying the current
`deltaCount`. -/
def parseEvent (P : PayloadParser) (includeThinking : Bool)
    (st : ParseState) (ev : Str) : ParseState :=
  if containsSub mdMarker ev && containsSub dataMarker ev then
    match matchData ev with
    | none => st
    | some payload =>
      let cnt := st.deltaCount + 1
      match P payload with
      | none => { st with deltaCount := cnt, warnings := st.warnings + 1 }
      | some pd =>
        let d : SDelta := ⟨cnt, pd.content.getD [], pd.id, pd.object⟩
        { st with
            deltaCount := cnt,
            deltas := st.deltas ++ [d],
            callbackEvents := st.callbackEvents ++ [.deltaEvent d],
            agg :=
              match pd.content with
              | some cs => routeParseAll includeThinking st.agg cs
              | none => st.agg }
  else if containsSub doneMarker ev then
    { st with callbackEvents := st.callbackEvents ++ [.completionEvent st.deltaCount] }
  else st

/-- `parseSSEResponse`'s event loop: split the whole buffered SSE text on the
event separator, keep the fragments with non-empty trim (the final fragment
included — there is no retained buffer on this path), and process them in
order. -/
def parseSSERun (P : PayloadParser) (includeThinking : Bool) (sseData : Str) : ParseState :=
  (((splitNN sseData).filter (fun e => !(trimChars e).isEmpty)).foldl
    (parseEvent P includeThinking) .init)

/-- The value `parseSSEResponse` returns: the combined delta (`none` when no
content was accumulated), the separate thinking message (when enabled and
non-empty), the collected deltas, and `streaming.totalDeltas`. -/
structure ParseSSEResult where
  combinedDelta : Option CombinedDelta
  thinkingMessage : Option CombinedDelta
  deltas : List SDelta
  totalDeltas : Nat
  callbackEvents : List CallbackEvent
  warnings : Nat

def parseSSEResponse (P : PayloadParser) (includeThinking : Bool)
    (sseData : Str) : ParseSSEResult :=
  let st := parseSSERun P includeThinking sseData
  let content := parseCombinedContent st.agg
  { combinedDelta := if content.isEmpty then none else some ⟨content⟩,
    thinkingMessage :=
      if st.agg.hasThinking && !st.agg.thinkingContent.isEmpty then
        some (thinkingMessageOf st.agg.thinkingContent)
      else none,
    deltas := st.deltas,
    totalDeltas := st.deltaCount,
    callbackEvents := st.callbackEvents,
    warnings := st.warnings }

/-- The apostrophe character (kept out of string literals). -/
def sqChar : Char := Char.ofNat 39

/-- JavaScript object property assignment `row[k] = v`: overwrite in place
when the key exists, append otherwise. -/
def jsObjSet (fs : List (Str × Json)) (k : Str) (v : Json) : List (Str × Json) :=
  if fs.any (fun p => p.fst == k) then
    fs.map (fun p => if p.fst == k then (k, v) else p)
  else fs ++ [(k, v)]

/-- Per-field cleanup of the simplified CSV reader:
`field.trim().replace(/"/g, '')`. -/
def dequoteTrim (s : Str) : Str := (trimChars s).filter (fun c => !(c == '"'))

/-- One parsed CSV data row: `headers.forEach((header, index) => row[header]
= values[index] || '')`. -/
def buildCSVRow (headers values : List Str) : Json :=
  .obj (headers.enum.foldl (fun acc p => jsObjSet acc p.snd (.str (values.getD p.fst []))) [])

/-- `parseCSVToJSON`: trim the whole text, split into lines, return `[]` for
fewer than two lines, otherwise read the header row and split every further
line on commas (a simplified reader: quotes are stripped per field, embedded
commas are not handled). -/
def parseCSVToJSON (csvText : Str) : List Json :=
  match (trimChars csvText).splitOn '\n' with
  | [] => []
  | [_] => []
  | headerLine :: rest =>
    let headers := (headerLine.splitOn ',').map dequoteTrim
    rest.map (fun line => buildCSVRow headers ((line.splitOn ',').map dequoteTrim))

/-- One entry of the synthesizer's output `charts` list. -/
structure ChartEntry where
  ctype : Str
  spec : Json

/-- The mutable locals of `formatCortexAgentsResponse` during its content
walk. -/
structure WalkState where
  summary : Str
  data : List Json
  insights : Str
  charts : List ChartEntry
  sql : Str

/-- The locals' initial values. -/
def WalkState.init : WalkState :=
  ⟨[], [], "Response generated by Snowflake Cortex Agents".toList, [], []⟩

/-- Truthiness of an object field, e.g. `result.json.query_id`. -/
def jsTruthyField (v : Json) (k : Str) : Bool :=
  match v.getField k with
  | some j => j.truthy
  | none => false

/-- Processing of one `tool_results.content` entry by the synthesizer:
a `json` entry carrying a truthy `sql` field sets `sql` and lets the entry's
`text` overwrite `insights`; a `json` entry that has a truthy `query_id` or
is itself an array replaces `data`; a `text/csv` entry replaces `data` with
the parsed CSV. -/
def walkResultItem (st : WalkState) (r : ResItem) : WalkState :=
  match r with
  | .jsonItem (some v) =>
    let st1 :=
      match v.strField "sql".toList with
      | some s =>
        { st with sql := s, insights := orElseStr (v.strField "text".toList) st.insights }
      | none => st
    if jsTruthyField v "query_id".toList || v.isArr then
      { st1 with data := match v with | .arr xs => xs | _ => [v] }
    else st1
  | .jsonItem none => st
  | .csvItem t => { st with data := parseCSVToJSON t }
  | .otherItem => st

/-- The external capabilities `formatCortexAgentsResponse` consumes:
`executeQuery` (which may throw, carrying an error message) and `JSON.parse`
on chart-spec strings (`none` models a thrown `SyntaxError`). -/
structure FormatEnv where
  executeQuery : Str → Except Str (List Json)
  parseJson : Str → Option Json

/-- The synthesizer's per-item switch.  A chart item whose `chart_spec`
string fails to parse throws out of the walk (caught by the function's outer
`catch`); everything else is total.  Items of type `thinking` or of unknown
type fall through the switch unchanged. -/
def walkContent (env : FormatEnv) (st : WalkState) (c : ContentItem) :
    Except Unit WalkState :=
  match c with
  | .textItem t => .ok { st with summary := st.summary ++ orElseStr t [] }
  | .toolUseItem tu =>
    match tu with
    | some obj =>
      if obj.name = some "DataAnalyst".toList then
        .ok { st with insights := "Generated SQL query using Cortex Agents".toList }
      else .ok st
    | none => .ok st
  | .toolResultsItem tr =>
    match tr with
    | some obj =>
      match obj.content with
      | some items => .ok (items.foldl walkResultItem st)
      | none => .ok st
    | none => .ok st
  | .chartItem ch =>
    match ch with
    | some obj =>
      match obj.chart_spec with
      | some spec =>
        if spec.isEmpty then .ok st
        else
          match env.parseJson spec with
          | some j =>
            .ok { st with
                    charts := st.charts ++ [⟨"vega-lite".toList, j⟩],
                    insights := st.insights ++ " Chart visualization included.".toList }
          | none => .error ()
      | none => .ok st
    | none => .ok st
  | .thinkingItem _ => .ok st
  | .otherItem _ => .ok st

/-- The whole content walk. -/
def walkAll (env : FormatEnv) (st : WalkState) (cs : List ContentItem) :
    Except Unit WalkState :=
  cs.foldlM (walkContent env) st

/-- The final structured outcome of one query.  JavaScript result objects
that omit a field are modelled with that field empty. -/
structure SynthResult where
  summary : Str
  data : List Json
  insights : Str
  source : Str
  sql : Str
  charts : List ChartEntry

/-- `summary.includes(three-backticks-sql) || summary.toLowerCase().includes("sql")`. -/
def mentionsSql (summary : Str) : Bool :=
  containsSub "```sql".toList summary
    || containsSub "sql".toList (summary.map Char.toLower)

/-- `Found N result(s) for your query.` -/
def foundSummary (n : Nat) : Str :=
  "Found ".toList ++ (toString n).toList ++ " result".toList
    ++ (if n ≠ 1 then ['s'] else []) ++ " for your query.".toList

/-- The row-count note appended to a summary that mentions SQL. -/
def queryResultsNote (n : Nat) : Str :=
  "\n\n**Query Results:** ".toList ++ (toString n).toList ++ " row(s) found.".toList

/-- The tail of `formatCortexAgentsResponse`: generate a fallback summary
when none was accumulated, trim the summary, and assemble the result. -/
def finishFormat (st : WalkState) (calls : List Str) : SynthResult × List Str :=
  let summary1 :=
    if st.summary.isEmpty && !st.data.isEmpty then foundSummary st.data.length
    else if st.summary.isEmpty then "Query processed successfully.".toList
    else st.summary
  (⟨trimChars summary1, st.data, st.insights, "cortex_agents_api".toList, st.sql, st.charts⟩,
   calls)

/-- The result `formatCortexAgentsResponse` returns from its outer `catch`
(the source object carries no `sql`/`charts` fields). -/
def formatCatchResult : SynthResult :=
  ⟨"Cortex Agents response received but formatting failed".toList, [],
   "Please try rephrasing your question".toList, "cortex_agents_api".toList, [], []⟩

/-- `formatCortexAgentsResponse`: walk the delta's content items; when a
non-empty `sql` was extracted, restore the database context (best-effort,
modelled as a no-op because `switchToOriginalDatabase` swallows every error)
and execute it, folding success/empty/failure into `data`/`summary`/
`insights`; finally fill in a fallback summary.  The second component lists
the SQL texts passed to `executeQuery` (`[]` or a singleton), recording
whether the execution branch ran. -/
def formatCortexAgentsResponse (env : FormatEnv) (delta : CombinedDelta) :
    SynthResult × List Str :=
  match walkAll env .init delta.content with
  | .error _ => (formatCatchResult, [])
  | .ok st =>
    if !st.sql.isEmpty && !(trimChars st.sql).isEmpty then
      match env.executeQuery st.sql with
      | .ok rows =>
        if !rows.isEmpty then
          finishFormat
            { st with
                data := rows,
                summary := st.summary
                  ++ (if mentionsSql st.summary then queryResultsNote rows.length else []),
                insights := "SQL query executed successfully. ".toList ++ st.insights }
            [st.sql]
        else
          finishFormat
            { st with insights := "SQL query executed but returned no results. ".toList ++ st.insights }
            [st.sql]
      | .error msg =>
        finishFormat
          { st with
              insights := "SQL query provided but execution failed: ".toList ++ msg
                ++ ". ".toList ++ st.insights }
          [st.sql]
    else finishFormat st []

/-- `escapeCSVField`: quote-wrap and double internal quotes when the field
contains a comma, quote, or line break; emit bare otherwise.  (The claims
feed it string values, for which `String(field)` is the identity.) -/
def escapeCSVField (field : Str) : Str :=
  if field.any (fun c => c == ',' || c == '"' || c == '\n' || c == '\r') then
    '"' :: (field.flatMap (fun c => if c == '"' then ['"', '"'] else [c])) ++ ['"']
  else field

/-- Accumulate one row's keys into the first-seen-order column set. -/
def addColsOfRow (acc : List Str) (row : List (Str × Str)) : List Str :=
  row.foldl (fun acc2 p => if acc2.contains p.fst then acc2 else acc2 ++ [p.fst]) acc

/-- The union of all keys across all rows, in first-seen order (the `Set`
insertion loop of `generateCSV`). -/
def columnsUnion (data : List (List (Str × Str))) : List Str :=
  data.foldl addColsOfRow []

/-- One row's cells in column order; a missing key renders as the empty
string. -/
def csvRowCells (columns : List Str) (row : List (Str × Str)) : List Str :=
  columns.map (fun col => match row.lookup col with | some v => v | none => [])

/-- `generateCSV` over row-maps (rows are JavaScript objects whose values the
claims restrict to strings): header row of escaped column names, then one
line per row, each line joined with commas and terminated by a newline. -/
def generateCSV (data : List (List (Str × Str))) : Str :=
  if data.isEmpty then "No data to export".toList
  else
    let columns := columnsUnion data
    if columns.isEmpty then "No structured data to export".toList
    else
      (List.intercalate [','] (columns.map escapeCSVField) ++ ['\n'])
        ++ data.flatMap
            (fun row => List.intercalate [','] ((csvRowCells columns row).map escapeCSVField) ++ ['\n'])

/-- The agent configuration returned by `getAgentConfiguration` (its contents
only shape the outbound request payload, which no claim concerns). -/
structure AgentConfig where
  agent_spec : Option Json

/-- The HTTP response of the agent API call, after `validateStatus` resolved
it (status < 500): an error status (>= 400), a live stream of chunks, a JSON
body with a `delta`, a string body of SSE text, or any other JSON body. -/
inductive ApiResponse where
  | errorStatus (status : Nat)
  | streamResp (chunks : List Str)
  | directDelta (d : CombinedDelta)
  | sseText (s : Str)
  | otherJson (message : Option Str)

/-- The external collaborators of `callCortexAgentsAPI`:
`getSnowflakeAccessToken()` (which catches internally and yields `null` on
any failure), `process.env.CORTEX_AGENTS_AGENT_NAME`,
`getAgentConfiguration` (which may throw, return `null`, or return a
configuration), and the HTTP response. -/
structure ApiEnv where
  accessToken : Option Str
  agentName : Option Str
  agentConfigResult : Except Str (Option AgentConfig)
  response : ApiResponse

/-- What one query hands back: a single synthesized result, or a
main/reasoning pair (`hasMultipleMessages: true`). -/
inductive QueryOutcome where
  | single (r : SynthResult)
  | multi (mainMessage thinkingMessage : SynthResult)

/-- The `configuration_error` result returned when no agent name is set. -/
def configErrorNoAgent : SynthResult :=
  ⟨"Agent configuration error: No Cortex Agent is configured for this bot.".toList, [],
   "Please set CORTEX_AGENTS_AGENT_NAME in your environment variables to specify which Cortex Agent to use. Contact your administrator for available agent names.".toList,
   "configuration_error".toList, [], []⟩

/-- The `configuration_error` result returned when the lookup finds no
configuration. -/
def configErrorNotFound (name : Str) : SynthResult :=
  ⟨"Agent configuration not found for ".toList ++ [sqChar] ++ name ++ [sqChar]
     ++ ". Please check that the agent exists and is accessible.".toList, [],
   "Contact your administrator to verify the agent exists and you have permissions to access it.".toList,
   "configuration_error".toList, [], []⟩

/-- The `configuration_error` result returned when the lookup throws. -/
def configErrorLookupFailed (name msg : Str) : SynthResult :=
  ⟨"Failed to read agent configuration for ".toList ++ [sqChar] ++ name ++ [sqChar]
     ++ ": ".toList ++ msg, [],
   "Check database permissions and table structure. Contact your administrator for assistance.".toList,
   "configuration_error".toList, [], []⟩

/-- The "other response formats" result. -/
def otherFormatResult (message : Option Str) : SynthResult :=
  ⟨orElseStr message "Response received from Cortex Agents".toList, [], [],
   "cortex_agents_api".toList, [], []⟩

/-- End-of-stream handling of `processStreamingResponse`: format the combined
delta; when thinking content was captured, format the synthetic reasoning
message as well and resolve a main/reasoning pair. -/
def livePathOutcome (fenv : FormatEnv) (P : PayloadParser) (includeThinking : Bool)
    (chunks : List Str) : QueryOutcome :=
  let st := (runChunks P includeThinking chunks).core
  let main := (formatCortexAgentsResponse fenv (liveCombined st.agg)).fst
  if st.agg.hasThinking && !st.agg.thinkingContent.isEmpty then
    .multi main
      (formatCortexAgentsResponse fenv (thinkingMessageOf st.agg.thinkingContent)).fst
  else .single main

/-- The buffered SSE branch of `callCortexAgentsAPI`: parse the blob; when a
combined delta exists, format it (and the thinking message if present);
otherwise fall through to the function's final `return null`. -/
def sseBranchOutcome (fenv : FormatEnv) (P : PayloadParser) (includeThinking : Bool)
    (s : Str) : Option QueryOutcome :=
  let pr := parseSSEResponse P includeThinking s
  match pr.combinedDelta with
  | some cd =>
    let main := (formatCortexAgentsResponse fenv cd).fst
    match pr.thinkingMessage with
    | some tm => some (.multi main (formatCortexAgentsResponse fenv tm).fst)
    | none => some (.single main)
  | none => none

/-- `callCortexAgentsAPI`: authenticate first (`null` token aborts with
`null` before anything else); then consult the agent configuration (absence
or lookup failure yields a `configuration_error` result); then dispatch on
the response shape.  `none` models every `return null` (the caller then falls
back). -/
def callCortexAgentsAPI (fenv : FormatEnv) (P : PayloadParser) (includeThinking : Bool)
    (env : ApiEnv) : Option QueryOutcome :=
  match env.accessToken with
  | none => none
  | some _ =>
    match env.agentName with
    | none => some (.single configErrorNoAgent)
    | some name =>
      match env.agentConfigResult with
      | .error msg => some (.single (configErrorLookupFailed name msg))
      | .ok none => some (.single (configErrorNotFound name))
      | .ok (some _) =>
        match env.response with
        | .errorStatus _ => none
        | .streamResp chunks => some (livePathOutcome fenv P includeThinking chunks)
        | .directDelta d => some (.single (formatCortexAgentsResponse fenv d).fst)
        | .sseText s =>
          if containsSub mdMarker s then sseBranchOutcome fenv P includeThinking s
          else some (.single (otherFormatResult none))
        | .otherJson m => some (.single (otherFormatResult m))

/-- `fallbackToBasicQuery`, parameterized by the outcome of the
information-schema table query. -/
def fallbackToBasicQuery (tablesResult : Except Str (List Json)) : SynthResult :=
  match tablesResult with
  | .ok tables =>
    ⟨"Cortex Analyst is not available. Here are the available tables in your schema:".toList,
     tables,
     "You have ".toList ++ (toString tables.length).toList
       ++ " tables available. Try asking specific questions about these tables or contact your administrator to enable Cortex Agents.".toList,
     "fallback_query".toList, [], []⟩
  | .error _ =>
    ⟨"I".toList ++ [sqChar] ++ "m having trouble connecting to your data.".toList, [],
     "Please check your Snowflake connection and try again. You may need to enable Cortex Agents in your account.".toList,
     "error_fallback".toList, [], []⟩

/-- `queryWithCortexAgents`: use the agent result when one came back,
otherwise fall back to the basic table query. -/
def queryWithCortexAgents (fenv : FormatEnv) (P : PayloadParser) (includeThinking : Bool)
    (env : ApiEnv) (tablesResult : Except Str (List Json)) : QueryOutcome :=
  match callCortexAgentsAPI fenv P includeThinking env with
  | some r => r
  | none => .single (fallbackToBasicQuery tablesResult)

/-- The event fragment of one `message.delta` frame (the frame minus its
terminating blank-line separator). -/
def frameBody (payload : Str) : Str := "event: message.delta\ndata: ".toList ++ payload

/-- A full `message.delta` SSE frame for the given `data:` payload. -/
def renderPayload (payload : Str) : Str := frameBody payload ++ ['\n', '\n']

/-- A structured `message.delta` frame: the `data:` payload text together
with the parse the payload denotes. -/
structure Frame where
  payload : Str
  parsed : DeltaPayload

def renderFrame (f : Frame) : Str := renderPayload f.payload

/-- A completion frame, `event: done` with payload `{}`. -/
def doneFrame : Str := "event: done\ndata: \x7b\x7d".toList ++ ['\n', '\n']

/-- A `data:` payload is clean when it is non-empty, contains no line
terminator (it sits on a single `data:` line) and does not begin with
whitespace. -/
def cleanPayload (p : Str) : Prop :=
  p ≠ [] ∧ (∀ c ∈ p, isLineTermChar c = false) ∧ isWSChar (p.headD ' ') = false

/-- A well-formed frame: clean payload that parses to the recorded value. -/
def wfFrame (P : PayloadParser) (f : Frame) : Prop :=
  cleanPayload f.payload ∧ P f.payload = some f.parsed

/-- A corrupt frame: clean payload whose JSON fails to parse. -/
def corruptFor (P : PayloadParser) (p : Str) : Prop :=
  cleanPayload p ∧ P p = none

/-- The delta a frame produces when assigned index `idx`. -/
def frameDeltaAt (idx : Nat) (f : Frame) : SDelta :=
  ⟨idx, f.parsed.content.getD [], f.parsed.id, f.parsed.object⟩

/-- The callback events a run of well-formed frames produces, starting after
`base` previously consumed index slots. -/
def framesEmitted : Nat → List Frame → List CallbackEvent
  | _, [] => []
  | base, f :: fs => .deltaEvent (frameDeltaAt (base + 1) f) :: framesEmitted (base + 1) fs

/-- The indices of the deltas handed to the callback, in order. -/
def deltaIndicesOf (evts : List CallbackEvent) : List Nat :=
  evts.filterMap (fun e => match e with | .deltaEvent d => some d.deltaIndex | _ => none)

/-- The `totalDeltas` values of the completion notifications handed to the
callback, in order. -/
def completionsOf (evts : List CallbackEvent) : List Nat :=
  evts.filterMap (fun e => match e with | .completionEvent n => some n | _ => none)

/-- The concatenation of all `text` content across the deltas handed to the
callback. -/
def emittedTextConcat (evts : List CallbackEvent) : Str :=
  (evts.filterMap (fun e => match e with | .deltaEvent d => some d.content | _ => none)).flatMap
    (fun cs => cs.flatMap (fun c => match c with | .textItem t => orElseStr t [] | _ => []))

/-- The ordered content items of a frame run, as the accumulators see them. -/
def framesContents (frames : List Frame) : List ContentItem :=
  frames.flatMap (fun f => f.parsed.content.getD [])

/-- Feeding an ordered sequence of content items through the live path's
routing and combined-delta construction. -/
def liveRouteResult (includeThinking : Bool) (items : List ContentItem) : CombinedDelta :=
  liveCombined (routeLiveAll includeThinking .init items)

/-- Feeding the same sequence through the fallback path's routing and
combined-delta construction. -/
def parseRouteResult (includeThinking : Bool) (items : List ContentItem) : List ContentItem :=
  parseCombinedContent (routeParseAll includeThinking .init items)

/-- Whether a content item is a `tool_use` item. -/
def isToolUse : ContentItem → Bool
  | .toolUseItem _ => true
  | _ => false

/-- The chart entry a content item contributes to the synthesizer's output
(under the given `JSON.parse`). -/
def expectedChartEntry (env : FormatEnv) (c : ContentItem) : Option ChartEntry :=
  match c with
  | .chartItem (some obj) =>
    match obj.chart_spec with
    | some spec =>
      if spec.isEmpty then none
      else (env.parseJson spec).map (fun j => ⟨"vega-lite".toList, j⟩)
    | none => none
  | _ => none

/-- A content item never throws out of the synthesizer's walk: if it is a
chart item carrying a non-empty spec string, that string parses. -/
def chartSpecParses (env : FormatEnv) (c : ContentItem) : Prop :=
  match c with
  | .chartItem (some obj) =>
    match obj.chart_spec with
    | some spec => ¬spec.isEmpty → (env.parseJson spec).isSome
    | none => True
  | _ => True

/-- Whether a content item is a tool item (either kind). -/
def isToolItem : ContentItem → Bool
  | .toolUseItem _ => true
  | .toolResultsItem _ => true
  | _ => false

/-- A CSV field within the scope of the round-trip claim: non-empty, free of
commas, quotes and line breaks, and neither starting nor ending with
whitespace (so the reader's per-field `trim()` leaves it unchanged). -/
def cleanCSVField (s : Str) : Bool :=
  !s.isEmpty
    && s.all (fun c => !(c == ',' || c == '"' || c == '\n' || c == '\r'))
    && !isWSChar (s.headD ' ')
    && !isWSChar (s.getLastD ' ')

/-- A row-map as `parseCSVToJSON` would deliver it. -/
def rowToJson (row : List (Str × Str)) : Json :=
  .obj (row.map (fun p => (p.fst, Json.str p.snd)))

/-- A format environment whose SQL execution returns no rows and whose chart
parsing always fails; used by concrete evaluations that involve neither. -/
def trivialFormatEnv : FormatEnv := ⟨fun _ => .ok [], fun _ => none⟩

/-- A format environment whose SQL execution throws. -/
def failExecEnv : FormatEnv := ⟨fun _ => .error "boom".toList, fun _ => none⟩

/-- Concrete parsed payloads and frames for the concrete evaluations. -/
def pdA : DeltaPayload := ⟨"a1".toList, "md".toList, some [.textItem (some "Hel".toList)]⟩

def pdB : DeltaPayload := ⟨"b1".toList, "md".toList, some [.textItem (some "lo".toList)]⟩

/-- A concrete instance of the platform `JSON.parse` on the payloads the
concrete evaluations use; everything else is a syntax error. -/
def testParser : PayloadParser := fun s =>
  if s = "PAYA".toList then some pdA
  else if s = "PAYB".toList then some pdB
  else none

def frameA : Frame := ⟨"PAYA".toList, pdA⟩

def frameB : Frame := ⟨"PAYB".toList, pdB⟩

/-- The content-item sequence refuting live/fallback parity: two `tool_use`
items, the first named `DataAnalyst`. -/
def c1Items : List ContentItem :=
  [.toolUseItem (some ⟨some "DataAnalyst".toList⟩),
   .toolUseItem (some ⟨some "Other".toList⟩)]

/-- A `tool_results` delta whose single JSON result carries a SQL statement. -/
def sqlJson : Json :=
  .obj [("sql".toList, .str "SELECT 1".toList), ("text".toList, .str "here".toList)]

def c4Delta : CombinedDelta :=
  ⟨[.toolResultsItem (some ⟨some [.jsonItem (some sqlJson)]⟩)]⟩

/-- An API environment for the zero-delta buffered response: token and agent
configuration present, body an SSE blob containing the delta marker but no
`data:` line. -/
def c5Env : ApiEnv :=
  ⟨some "tok".toList, some "agent".toList, .ok (some ⟨none⟩),
   .sseText ("event: message.delta".toList ++ ['\n', '\n'])⟩

/-- A chart-spec JSON value and a format environment that parses the string
`SPEC` to it. -/
def chartSpecJson : Json := .obj [("mark".toList, .str "bar".toList)]

def chartEnv : FormatEnv :=
  ⟨fun _ => .ok [], fun s => if s = "SPEC".toList then some chartSpecJson else none⟩

def c8Delta : CombinedDelta := ⟨[.chartItem (some ⟨some "SPEC".toList⟩)]⟩

/-- The row set refuting the CSV round-trip as stated: one row whose single
value is the empty string. -/
def c9Rows : List (List (Str × Str)) := [[("a".toList, [])]]

/-- An API environment whose token provider yields `null`. -/
def c10Env : ApiEnv := ⟨none, none, .ok none, .errorStatus 400⟩

/-- The two frames `frameA ++ frameB`, cut at byte positions that split both
frames mid-line. -/
def c2Chunks : List Str :=
  ["event: message.delta\ndata: PAY".toList,
   "A\n\nevent: message.del".toList,
   "ta\ndata: PAYB\n\n".toList]

/-- One well-formed frame followed by the completion frame, cut mid-payload. -/
def c6Chunks : List Str :=
  ["event: message.delta\ndata: PAY".toList, "A".toList ++ '\n' :: '\n' :: doneFrame]

/-- A well-formed frame, a frame with corrupt JSON, and another well-formed
frame, fed as one chunk. -/
def c3Chunk : Str :=
  renderFrame frameA ++ renderPayload "BAD".toList ++ renderFrame frameB

/-- The deltas a run of well-formed frames produces, starting after `base`
previously consumed index slots. -/
def framesDeltas : Nat → List Frame → List SDelta
  | _, [] => []
  | base, f :: fs => frameDeltaAt (base + 1) f :: framesDeltas (base + 1) fs

/-- The event fragment of the completion frame. -/
def doneBody : Str := "event: done\ndata: \x7b\x7d".toList

/-- The fallback aggregate that corresponds to a live aggregate containing no
retained `tool_use` item. -/
def liveToParseAgg (la : LiveAgg) : ParseAgg :=
  ⟨la.combinedContent, none, la.toolResults, la.charts, la.thinkingContent, la.hasThinking⟩

/-- The note appended to `insights` for each chart. -/
def chartNote : Str := " Chart visualization included.".toList

/-- The text a content item contributes to the accumulated summary. -/
def textOf (c : ContentItem) : Str :=
  match c with
  | .textItem t => orElseStr t []
  | _ => []

/-- The default insights string. -/
def defaultInsights : Str := "Response generated by Snowflake Cortex Agents".toList

/-- Join with the event separator; the left inverse of `splitNN`. -/
def joinNN : List Str → Str
  | [] => []
  | [s] => s
  | s :: ss => s ++ '\n' :: '\n' :: joinNN ss

theorem splitNN_ne_nil (s : Str) : splitNN s ≠ [] := by
  induction s using splitNN.induct with
  | case1 => simp [splitNN]
  | case2 c => simp [splitNN]
  | case3 a b rest h ih => simp [splitNN, h]
  | case4 a b rest h hs ih => exact absurd hs ih
  | case5 a b rest h s ss hs ih => simp [splitNN, h, hs]

theorem joinNN_splitNN (s : Str) : joinNN (splitNN s) = s := by
  induction s using splitNN.induct with
  | case1 => simp [splitNN, joinNN]
  | case2 c => simp [splitNN, joinNN]
  | case3 a b rest h ih =>
    have ha : a = '\n' := by
      have := h; simp at this; exact this.1
    have hb : b = '\n' := by
      have := h; simp at this; exact this.2
    subst ha; subst hb
    simp only [splitNN, h, if_true]
    cases hs : splitNN rest with
    | nil => exact absurd hs (splitNN_ne_nil _)
    | cons t ts =>
      rw [hs] at ih
      show joinNN ([] :: t :: ts) = '\n' :: '\n' :: rest
      simp only [joinNN]
      simpa using ih
  | case4 a b rest h hs ih => exact absurd hs (splitNN_ne_nil _)
  | case5 a b rest h s ss hs ih =>
    rw [hs] at ih
    simp only [splitNN, h, if_false, hs]
    cases ss with
    | nil =>
      show joinNN [a :: s] = a :: b :: rest
      simp only [joinNN] at ih ⊢
      simp [ih]
    | cons t ts =>
      show joinNN ((a :: s) :: t :: ts) = a :: b :: rest
      simp only [joinNN] at ih ⊢
      simp [← ih]

theorem splitNN_eq_single {l s : Str} (h : splitNN l = [s]) : s = l := by
  have := joinNN_splitNN l
  rw [h] at this
  simpa [joinNN] using this

/-- Greedy splitting composes across an arbitrary cut point: re-splitting the
retained last fragment with the appended text recovers the split of the
concatenation. -/
theorem splitNN_append (x y : Str) :
    splitNN (x ++ y) = (splitNN x).dropLast ++ splitNN ((splitNN x).getLastD [] ++ y) := by
  induction x using splitNN.induct with
  | case1 => simp [splitNN]
  | case2 c => simp [splitNN, List.getLastD]
  | case3 a b rest h ih =>
    have hsp : splitNN (a :: b :: rest) = [] :: splitNN rest := by
      simp [splitNN, h]
    have hcons : splitNN ((a :: b :: rest) ++ y) = [] :: splitNN (rest ++ y) := by
      have ha : a = '\n' ∧ b = '\n' := by simpa using h
      simp [splitNN, ha.1, ha.2]
    rw [hcons, hsp, ih]
    cases hs : splitNN rest with
    | nil => exact absurd hs (splitNN_ne_nil _)
    | cons t ts => simp [List.getLastD_cons]
  | case4 a b rest h hs ih => exact absurd hs (splitNN_ne_nil _)
  | case5 a b rest h s ss hs ih =>
    rw [hs] at ih
    have hsp : splitNN (a :: b :: rest) = (a :: s) :: ss := by
      simp [splitNN, h, hs]
    rw [hsp]
    cases ss with
    | nil =>
      have hsbr : s = b :: rest := splitNN_eq_single hs
      have e1 : ([a :: s] : List Str).dropLast = [] := rfl
      have e2 : ([a :: s] : List Str).getLastD [] = a :: s := rfl
      rw [e1, e2, List.nil_append]
      subst hsbr
      simp only [List.cons_append]
    | cons t ts =>
      have lhs1 : splitNN ((a :: b :: rest) ++ y)
          = match splitNN (b :: (rest ++ y)) with
            | [] => [[a]]
            | u :: us => (a :: u) :: us := by
        simp [splitNN, h]
      have ihy : splitNN ((b :: rest) ++ y)
          = s :: (List.dropLast (t :: ts) ++ splitNN ((t :: ts).getLastD [] ++ y)) := by
        rw [ih]; simp [List.getLastD_cons]
      simp only [List.cons_append] at ihy
      rw [lhs1, ihy]
      simp [List.getLastD_cons]

/-- Feeding a chunk in two pieces is the same as feeding it whole. -/
theorem feedChunk_append (P : PayloadParser) (inc : Bool) (st : StreamState) (a b : Str) :
    feedChunk P inc st (a ++ b) = feedChunk P inc (feedChunk P inc st a) b := by
  unfold feedChunk
  have key := splitNN_append (st.buffer ++ a) b
  rw [List.append_assoc] at key
  have hne : splitNN ((splitNN (st.buffer ++ a)).getLastD [] ++ b) ≠ [] := splitNN_ne_nil _
  simp only [List.getLastD_eq_getLast?] at key hne ⊢
  simp only [key]
  rw [List.dropLast_append_of_ne_nil _ hne, List.foldl_append]
  refine congrArg₂ StreamState.mk ?_ rfl
  rw [List.getLast?_append_of_ne_nil _ hne]

/-- The live decoder's final state depends only on the concatenation of the
arriving chunks, not on how the stream was cut into chunks. -/
theorem runChunks_eq_flatten (P : PayloadParser) (inc : Bool) (chunks : List Str) :
    runChunks P inc chunks = feedChunk P inc .init chunks.flatten := by
  induction chunks using List.reverseRecOn with
  | nil => rfl
  | append_singleton cs c ih =>
    show List.foldl (feedChunk P inc) StreamState.init (cs ++ [c]) = _
    rw [List.foldl_append]
    show feedChunk P inc (runChunks P inc cs) c = _
    rw [ih, ← feedChunk_append, List.flatten_append]
    simp


theorem hasNN_append (x y : Str) :
    hasNN (x ++ y) = (hasNN x || hasNN y
      || (decide (x.getLast? = some '\n') && decide (y.head? = some '\n'))) := by
  induction x using hasNN.induct with
  | case1 => simp [hasNN]
  | case2 c =>
    cases y with
    | nil => simp [hasNN]
    | cons d ys =>
      show hasNN (c :: d :: ys) = _
      rw [show hasNN (c :: d :: ys) = ((c == '\n' && d == '\n') || hasNN (d :: ys)) from rfl]
      by_cases hc : c = '\n' <;> by_cases hd : d = '\n' <;>
        simp [hasNN, hc, hd, Bool.or_comm]
  | case3 a b rest ih =>
    simp only [List.cons_append] at ih ⊢
    rw [show hasNN (a :: b :: (rest ++ y))
          = ((a == '\n' && b == '\n') || hasNN (b :: (rest ++ y))) from rfl,
        show hasNN (a :: b :: rest)
          = ((a == '\n' && b == '\n') || hasNN (b :: rest)) from rfl,
        List.getLast?_cons_cons, ih]
    cases (a == '\n' && b == '\n') <;> simp

theorem hasNN_of_no_lt (p : Str) (h : ∀ c ∈ p, isLineTermChar c = false) :
    hasNN p = false := by
  induction p using hasNN.induct with
  | case1 => rfl
  | case2 c => rfl
  | case3 a b rest ih =>
    have ha : isLineTermChar a = false := h a (by simp)
    have ha2 : ¬ a = '\n' := by
      intro hc; subst hc; simp [isLineTermChar] at ha
    have hb : hasNN (b :: rest) = false :=
      ih (fun c hc => h c (List.mem_cons_of_mem a hc))
    show ((a == '\n' && b == '\n') || hasNN (b :: rest)) = false
    simp [hb, ha2]

theorem splitNN_sepfree (x : Str) (h : hasNN x = false) : splitNN x = [x] := by
  induction x using splitNN.induct with
  | case1 => rfl
  | case2 c => rfl
  | case3 a b rest h2 ih =>
    exfalso
    have e : hasNN (a :: b :: rest) = ((a == '\n' && b == '\n') || hasNN (b :: rest)) := rfl
    rw [e, h2] at h
    simp at h
  | case4 a b rest h2 hs ih => exact absurd hs (splitNN_ne_nil _)
  | case5 a b rest h2 s ss hs ih =>
    have hrest : hasNN (b :: rest) = false := by
      have e : hasNN (a :: b :: rest) = ((a == '\n' && b == '\n') || hasNN (b :: rest)) := rfl
      rw [e] at h
      exact (Bool.or_eq_false_iff.mp h).2
    have hx := ih hrest
    rw [hx] at hs
    cases hs
    simp [splitNN, h2, hx]


/-- Splitting text that starts with a separator-free fragment followed by the
separator: the fragment comes off whole. -/
theorem splitNN_sep_cons (x y : Str) (hx : hasNN x = false)
    (hlast : x.getLast? ≠ some '\n') :
    splitNN (x ++ '\n' :: '\n' :: y) = x :: splitNN y := by
  induction x using splitNN.induct with
  | case1 =>
    show splitNN ('\n' :: '\n' :: y) = [] :: splitNN y
    simp [splitNN]
  | case2 c =>
    have hc : ¬ c = '\n' := by
      intro h; subst h; simp at hlast
    show splitNN (c :: '\n' :: '\n' :: y) = [c] :: splitNN y
    have : splitNN ('\n' :: '\n' :: y) = [] :: splitNN y := by simp [splitNN]
    simp [splitNN, hc, this]
  | case3 a b rest h2 ih =>
    exfalso
    have e : hasNN (a :: b :: rest) = ((a == '\n' && b == '\n') || hasNN (b :: rest)) := rfl
    rw [e, h2] at hx
    simp at hx
  | case4 a b rest h2 hs ih => exact absurd hs (splitNN_ne_nil _)
  | case5 a b rest h2 s ss hs ih =>
    have hrest : hasNN (b :: rest) = false := by
      have e : hasNN (a :: b :: rest) = ((a == '\n' && b == '\n') || hasNN (b :: rest)) := rfl
      rw [e] at hx
      exact (Bool.or_eq_false_iff.mp hx).2
    have hlast2 : (b :: rest).getLast? ≠ some '\n' := by
      rwa [List.getLast?_cons_cons] at hlast
    have ihr := ih hrest hlast2
    show splitNN (a :: b :: (rest ++ '\n' :: '\n' :: y)) = (a :: b :: rest) :: splitNN y
    have step : splitNN (a :: b :: (rest ++ '\n' :: '\n' :: y))
        = match splitNN (b :: (rest ++ '\n' :: '\n' :: y)) with
          | [] => [[a]]
          | u :: us => (a :: u) :: us := by
      simp [splitNN, h2]
    rw [step]
    simp only [List.cons_append] at ihr
    rw [ihr]


theorem getLast?_no_nl (p : Str) (h : ∀ c ∈ p, isLineTermChar c = false) :
    p.getLast? ≠ some '\n' := by
  intro hc
  obtain ⟨hne, heq⟩ := List.mem_getLast?_eq_getLast (show '\n' ∈ p.getLast? from hc)
  have hm : '\n' ∈ p := by
    rw [heq]
    exact List.getLast_mem hne
  have := h '\n' hm
  simp [isLineTermChar] at this

theorem hasNN_frameBody (p : Str) (hp : cleanPayload p) : hasNN (frameBody p) = false := by
  unfold frameBody
  rw [hasNN_append]
  have h1 : hasNN "event: message.delta\ndata: ".toList = false := by decide
  have h2 : decide (("event: message.delta\ndata: ".toList : Str).getLast? = some '\n') = false := by
    decide
  rw [h1, h2, hasNN_of_no_lt p hp.2.1]
  rfl

theorem getLast?_frameBody (p : Str) (hp : cleanPayload p) :
    (frameBody p).getLast? ≠ some '\n' := by
  unfold frameBody
  rw [List.getLast?_append_of_ne_nil _ hp.1]
  exact getLast?_no_nl p hp.2.1

theorem splitNN_frames_append (frames : List Frame) (rest : Str)
    (hwf : ∀ f ∈ frames, cleanPayload f.payload) :
    splitNN ((frames.map renderFrame).flatten ++ rest)
      = frames.map (fun f => frameBody f.payload) ++ splitNN rest := by
  induction frames with
  | nil => simp
  | cons f fs ih =>
    have hclean := hwf f (by simp)
    simp only [List.map_cons, List.flatten_cons, List.append_assoc]
    rw [show renderFrame f ++ ((fs.map renderFrame).flatten ++ rest)
        = frameBody f.payload ++ '\n' :: '\n' :: ((fs.map renderFrame).flatten ++ rest) from by
      simp [renderFrame, renderPayload]]
    rw [splitNN_sep_cons _ _ (hasNN_frameBody _ hclean) (getLast?_frameBody _ hclean)]
    rw [ih (fun g hg => hwf g (List.mem_cons_of_mem f hg))]
    rfl


theorem matchData_frameBody (p : Str) (hp : cleanPayload p) :
    matchData (frameBody p) = some p := by
  obtain ⟨hne, hlt, hws⟩ := hp
  obtain ⟨c, p', rfl⟩ := List.exists_cons_of_ne_nil hne
  have hwsc : isWSChar c = false := hws
  have htake : (c :: p').takeWhile (fun ch => !isLineTermChar ch) = c :: p' := by
    rw [List.takeWhile_eq_self_iff]
    intro a ha
    simp [hlt a ha]
  have h1 : List.dropWhile isWSChar (' ' :: c :: p') = c :: p' := by
    rw [List.dropWhile_cons, if_pos (by decide), List.dropWhile_cons,
      if_neg (by simp [hwsc])]
  show matchData ("event: message.delta\ndata: ".toList ++ c :: p') = some (c :: p')
  simp [matchData, attemptAt, List.isPrefixOf, h1, htake]


theorem mem_dropWhile_of_mem {p : Char → Bool} {s : Str} {c : Char}
    (hc : c ∈ s) (hw : p c = false) : c ∈ s.dropWhile p := by
  induction s with
  | nil => cases hc
  | cons a l ih =>
    rw [List.dropWhile_cons]
    rcases List.mem_cons.mp hc with rfl | hmem
    · rw [if_neg (by simp [hw])]
      exact List.mem_cons_self _ _
    · by_cases hpa : p a = true
      · rw [if_pos hpa]; exact ih hmem
      · rw [if_neg hpa]; exact List.mem_cons_of_mem _ hmem

theorem trimChars_ne_nil_of_mem {s : Str} {c : Char}
    (hc : c ∈ s) (hw : isWSChar c = false) : trimChars s ≠ [] := by
  unfold trimChars
  intro h
  rw [List.reverse_eq_nil_iff] at h
  have h1 : c ∈ (s.dropWhile isWSChar).reverse :=
    List.mem_reverse.mpr (mem_dropWhile_of_mem hc hw)
  have h2 : c ∈ (s.dropWhile isWSChar).reverse.dropWhile isWSChar :=
    mem_dropWhile_of_mem h1 hw
  rw [h] at h2
  cases h2

theorem e_mem_frameBody (p : Str) : 'e' ∈ frameBody p := by
  unfold frameBody
  exact List.mem_append_left _ (by decide)

theorem containsSub_md_frameBody (p : Str) : containsSub mdMarker (frameBody p) = true := by
  unfold containsSub frameBody
  rw [decide_eq_true_eq]
  exact ((show mdMarker <+: "event: message.delta\ndata: ".toList by decide).trans
    (List.prefix_append _ _)).isInfix

theorem containsSub_data_frameBody (p : Str) : containsSub dataMarker (frameBody p) = true := by
  unfold containsSub frameBody
  rw [decide_eq_true_eq]
  exact (show dataMarker <:+: "event: message.delta\ndata: ".toList by decide).trans
    (List.prefix_append _ _).isInfix

theorem relevant_frameBody (p : Str) :
    (!(trimChars (frameBody p)).isEmpty && containsSub mdMarker (frameBody p)
      && containsSub dataMarker (frameBody p)) = true := by
  rw [containsSub_md_frameBody, containsSub_data_frameBody]
  have h := trimChars_ne_nil_of_mem (e_mem_frameBody p) (by decide)
  simp [List.isEmpty_iff, h]

theorem processEvent_frame (P : PayloadParser) (inc : Bool) (st : StreamCore)
    (f : Frame) (hf : wfFrame P f) :
    processEvent P inc st (frameBody f.payload)
      = ⟨st.deltaIndex + 1,
         routeLiveAll inc st.agg (f.parsed.content.getD []),
         st.callbackEvents ++ [.deltaEvent (frameDeltaAt (st.deltaIndex + 1) f)],
         st.warnings⟩ := by
  have h2 := hf.2
  unfold processEvent
  rw [if_pos (relevant_frameBody f.payload), matchData_frameBody _ hf.1]
  cases hcont : f.parsed.content with
  | none => simp [h2, hcont, frameDeltaAt, routeLiveAll]
  | some cs => simp [h2, hcont, frameDeltaAt, routeLiveAll]

theorem processEvent_corrupt (P : PayloadParser) (inc : Bool) (st : StreamCore)
    (p : Str) (hc : corruptFor P p) :
    processEvent P inc st (frameBody p)
      = ⟨st.deltaIndex + 1, st.agg, st.callbackEvents, st.warnings + 1⟩ := by
  have h2 := hc.2
  unfold processEvent
  rw [if_pos (relevant_frameBody p), matchData_frameBody _ hc.1]
  simp [h2]


theorem routeLiveAll_append (inc : Bool) (agg : LiveAgg) (xs ys : List ContentItem) :
    routeLiveAll inc agg (xs ++ ys) = routeLiveAll inc (routeLiveAll inc agg xs) ys := by
  simp [routeLiveAll, List.foldl_append]

/-- Full characterization of processing a run of well-formed frame bodies. -/
theorem foldl_processEvent_frames (P : PayloadParser) (inc : Bool)
    (frames : List Frame) (hwf : ∀ f ∈ frames, wfFrame P f) (st : StreamCore) :
    List.foldl (processEvent P inc) st (frames.map (fun f => frameBody f.payload))
      = ⟨st.deltaIndex + frames.length,
         routeLiveAll inc st.agg (framesContents frames),
         st.callbackEvents ++ framesEmitted st.deltaIndex frames,
         st.warnings⟩ := by
  induction frames generalizing st with
  | nil => simp [framesContents, framesEmitted, routeLiveAll]
  | cons f fs ih =>
    simp only [List.map_cons, List.foldl_cons]
    rw [processEvent_frame P inc st f (hwf f (by simp)),
      ih (fun g hg => hwf g (List.mem_cons_of_mem f hg))]
    have hcons : framesContents (f :: fs) = f.parsed.content.getD [] ++ framesContents fs := by
      simp [framesContents]
    have h1 : st.deltaIndex + 1 + fs.length = st.deltaIndex + (f :: fs).length := by
      simp; omega
    have h2 : routeLiveAll inc (routeLiveAll inc st.agg (f.parsed.content.getD []))
        (framesContents fs) = routeLiveAll inc st.agg (framesContents (f :: fs)) := by
      rw [hcons, routeLiveAll_append]
    have h3 : (st.callbackEvents ++ [CallbackEvent.deltaEvent (frameDeltaAt (st.deltaIndex + 1) f)])
          ++ framesEmitted (st.deltaIndex + 1) fs
        = st.callbackEvents ++ framesEmitted st.deltaIndex (f :: fs) := by
      rw [List.append_assoc]
      rfl
    rw [h1, h2, h3]

theorem deltaIndicesOf_framesEmitted (base : Nat) (frames : List Frame) :
    deltaIndicesOf (framesEmitted base frames) = List.range' (base + 1) frames.length := by
  induction frames generalizing base with
  | nil => simp [framesEmitted, deltaIndicesOf]
  | cons f fs ih =>
    rw [framesEmitted]
    show deltaIndicesOf (.deltaEvent (frameDeltaAt (base + 1) f) :: framesEmitted (base + 1) fs)
      = List.range' (base + 1) (fs.length + 1)
    rw [deltaIndicesOf, List.filterMap_cons]
    simp only [frameDeltaAt]
    rw [← deltaIndicesOf, ih, List.range'_succ]


/-- The single full feed over a run of well-formed frames, characterized. -/
theorem feedChunk_frames (P : PayloadParser) (inc : Bool)
    (frames : List Frame) (hwf : ∀ f ∈ frames, wfFrame P f) :
    feedChunk P inc .init (frames.map renderFrame).flatten
      = ⟨[], ⟨frames.length, routeLiveAll inc .init (framesContents frames),
             framesEmitted 0 frames, 0⟩⟩ := by
  unfold feedChunk
  have hsplit2 : splitNN (StreamState.init.buffer ++ (frames.map renderFrame).flatten)
      = frames.map (fun f => frameBody f.payload) ++ [[]] := by
    have h := splitNN_frames_append frames [] (fun f hf => (hwf f hf).1)
    simpa [StreamState.init] using h
  rw [hsplit2]
  have hdrop : (frames.map (fun f => frameBody f.payload) ++ ([[]] : List Str)).dropLast
      = frames.map (fun f => frameBody f.payload) := by
    simp
  have hlast : (frames.map (fun f => frameBody f.payload) ++ ([[]] : List Str)).getLastD []
      = [] := by
    simp [List.getLastD_eq_getLast?]
  simp only [hdrop, hlast]
  rw [show StreamState.init.core = StreamCore.init from rfl]
  rw [foldl_processEvent_frames P inc frames hwf StreamCore.init]
  simp [StreamCore.init]

/-- Claim C2: for every sequence of well-formed SSE frames, however the byte
stream is cut into chunks (including mid-frame cuts), the live decoder emits
deltas whose indices are exactly `1..N` (strictly increasing, no gaps, no
duplicates), its entire final state equals the single-chunk run's, and in
particular the concatenation of all text content across the emitted deltas
equals the single-chunk concatenation. -/
theorem C2_decoder_chunk_invariance (P : PayloadParser) (inc : Bool)
    (frames : List Frame) (hwf : ∀ f ∈ frames, wfFrame P f)
    (chunks : List Str)
    (hsplit : chunks.flatten = (frames.map renderFrame).flatten) :
    deltaIndicesOf (runChunks P inc chunks).core.callbackEvents
        = List.range' 1 frames.length
      ∧ runChunks P inc chunks = runChunks P inc [(frames.map renderFrame).flatten]
      ∧ emittedTextConcat (runChunks P inc chunks).core.callbackEvents
          = emittedTextConcat
              (runChunks P inc [(frames.map renderFrame).flatten]).core.callbackEvents := by
  have hrun : runChunks P inc chunks = feedChunk P inc .init (frames.map renderFrame).flatten := by
    rw [runChunks_eq_flatten, hsplit]
  have hsingle : runChunks P inc [(frames.map renderFrame).flatten]
      = feedChunk P inc .init (frames.map renderFrame).flatten := by
    rw [runChunks_eq_flatten]
    simp
  refine ⟨?_, ?_, ?_⟩
  · rw [hrun, feedChunk_frames P inc frames hwf]
    exact deltaIndicesOf_framesEmitted 0 frames
  · rw [hrun, hsingle]
  · rw [hrun, hsingle]


theorem routeParseAll_append (inc : Bool) (agg : ParseAgg) (xs ys : List ContentItem) :
    routeParseAll inc agg (xs ++ ys) = routeParseAll inc (routeParseAll inc agg xs) ys := by
  simp [routeParseAll, List.foldl_append]

theorem parseEvent_frame (P : PayloadParser) (inc : Bool) (st : ParseState)
    (f : Frame) (hf : wfFrame P f) :
    parseEvent P inc st (frameBody f.payload)
      = ⟨routeParseAll inc st.agg (f.parsed.content.getD []),
         st.deltas ++ [frameDeltaAt (st.deltaCount + 1) f],
         st.callbackEvents ++ [.deltaEvent (frameDeltaAt (st.deltaCount + 1) f)],
         st.deltaCount + 1,
         st.warnings⟩ := by
  have h2 := hf.2
  unfold parseEvent
  rw [if_pos (by rw [containsSub_md_frameBody, containsSub_data_frameBody]; rfl),
    matchData_frameBody _ hf.1]
  cases hcont : f.parsed.content with
  | none => simp [h2, hcont, frameDeltaAt, routeParseAll]
  | some cs => simp [h2, hcont, frameDeltaAt, routeParseAll]

theorem parseEvent_corrupt (P : PayloadParser) (inc : Bool) (st : ParseState)
    (p : Str) (hc : corruptFor P p) :
    parseEvent P inc st (frameBody p)
      = { st with deltaCount := st.deltaCount + 1, warnings := st.warnings + 1 } := by
  have h2 := hc.2
  unfold parseEvent
  rw [if_pos (by rw [containsSub_md_frameBody, containsSub_data_frameBody]; rfl),
    matchData_frameBody _ hc.1]
  simp [h2]

theorem parseEvent_done (P : PayloadParser) (inc : Bool) (st : ParseState) :
    parseEvent P inc st doneBody
      = { st with callbackEvents := st.callbackEvents ++ [.completionEvent st.deltaCount] } := by
  unfold parseEvent
  rw [if_neg (by decide), if_pos (by decide)]

theorem foldl_parseEvent_frames (P : PayloadParser) (inc : Bool)
    (frames : List Frame) (hwf : ∀ f ∈ frames, wfFrame P f) (st : ParseState) :
    List.foldl (parseEvent P inc) st (frames.map (fun f => frameBody f.payload))
      = ⟨routeParseAll inc st.agg (framesContents frames),
         st.deltas ++ framesDeltas st.deltaCount frames,
         st.callbackEvents ++ framesEmitted st.deltaCount frames,
         st.deltaCount + frames.length,
         st.warnings⟩ := by
  induction frames generalizing st with
  | nil => simp [framesContents, framesEmitted, framesDeltas, routeParseAll]
  | cons f fs ih =>
    simp only [List.map_cons, List.foldl_cons]
    rw [parseEvent_frame P inc st f (hwf f (by simp)),
      ih (fun g hg => hwf g (List.mem_cons_of_mem f hg))]
    have hcons : framesContents (f :: fs) = f.parsed.content.getD [] ++ framesContents fs := by
      simp [framesContents]
    have h1 : routeParseAll inc (routeParseAll inc st.agg (f.parsed.content.getD []))
        (framesContents fs) = routeParseAll inc st.agg (framesContents (f :: fs)) := by
      rw [hcons, routeParseAll_append]
    have h2 : (st.deltas ++ [frameDeltaAt (st.deltaCount + 1) f])
          ++ framesDeltas (st.deltaCount + 1) fs
        = st.deltas ++ framesDeltas st.deltaCount (f :: fs) := by
      rw [List.append_assoc]
      rfl
    have h3 : (st.callbackEvents ++ [CallbackEvent.deltaEvent (frameDeltaAt (st.deltaCount + 1) f)])
          ++ framesEmitted (st.deltaCount + 1) fs
        = st.callbackEvents ++ framesEmitted st.deltaCount (f :: fs) := by
      rw [List.append_assoc]
      rfl
    have h4 : st.deltaCount + 1 + fs.length = st.deltaCount + (f :: fs).length := by
      simp; omega
    rw [h1, h2, h3, h4]

theorem framesDeltas_length (base : Nat) (frames : List Frame) :
    (framesDeltas base frames).length = frames.length := by
  induction frames generalizing base with
  | nil => rfl
  | cons f fs ih => simp [framesDeltas, ih]


theorem splitNN_flatten_frames (frames : List Frame)
    (hwf : ∀ f ∈ frames, cleanPayload f.payload) :
    splitNN (frames.map renderFrame).flatten
      = frames.map (fun f => frameBody f.payload) ++ [[]] := by
  simpa using splitNN_frames_append frames [] hwf

theorem trim_frameBody_keep (p : Str) :
    (!(trimChars (frameBody p)).isEmpty) = true := by
  have h := trimChars_ne_nil_of_mem (e_mem_frameBody p) (by decide)
  simp [List.isEmpty_iff, h]

/-- The split of a frame run followed by the completion frame, after the
non-empty-trim filter. -/
theorem parse_events_frames_done (frames : List Frame)
    (hwf : ∀ f ∈ frames, cleanPayload f.payload) :
    ((splitNN ((frames.map renderFrame).flatten ++ doneFrame)).filter
        (fun e => !(trimChars e).isEmpty))
      = frames.map (fun f => frameBody f.payload) ++ [doneBody] := by
  have hsp : splitNN ((frames.map renderFrame).flatten ++ doneFrame)
      = frames.map (fun f => frameBody f.payload) ++ [doneBody, []] := by
    rw [splitNN_frames_append frames doneFrame hwf]
    have : splitNN doneFrame = [doneBody, []] := by
      have h := splitNN_sep_cons doneBody [] (by decide) (by decide)
      simp only [doneFrame, doneBody] at h ⊢
      simp [splitNN] at h
      simp [splitNN, h]
    rw [this]
  rw [hsp, List.filter_append]
  have h1 : (frames.map (fun f => frameBody f.payload)).filter
      (fun e => !(trimChars e).isEmpty) = frames.map (fun f => frameBody f.payload) := by
    rw [List.filter_eq_self]
    intro a ha
    obtain ⟨f, _, rfl⟩ := List.mem_map.mp ha
    exact trim_frameBody_keep f.payload
  have h2 : ([doneBody, []] : List Str).filter (fun e => !(trimChars e).isEmpty)
      = [doneBody] := by decide
  rw [h1, h2]


theorem processEvent_done (P : PayloadParser) (inc : Bool) (st : StreamCore) :
    processEvent P inc st doneBody = st := by
  unfold processEvent
  rw [if_neg (by decide)]

theorem completionsOf_framesEmitted (base : Nat) (frames : List Frame) :
    completionsOf (framesEmitted base frames) = [] := by
  induction frames generalizing base with
  | nil => rfl
  | cons f fs ih => simp [framesEmitted, completionsOf, List.filterMap_cons, frameDeltaAt, ← ih (base + 1)]

/-- Claim C6 (amended): a stream that ends with a completion frame never
converts it into a delta on either path; the buffered fallback path delivers
a completion notification carrying `totalDeltas = N` to the observer, but the
live streaming path delivers no completion notification at all (its `end`
handling only finalizes the aggregate). -/
theorem C6_done_event_behaviour (P : PayloadParser) (inc : Bool)
    (frames : List Frame) (hwf : ∀ f ∈ frames, wfFrame P f) :
    (parseSSEResponse P inc ((frames.map renderFrame).flatten ++ doneFrame)).deltas
        = framesDeltas 0 frames
      ∧ (parseSSEResponse P inc ((frames.map renderFrame).flatten ++ doneFrame)).deltas.length
        = frames.length
      ∧ completionsOf (parseSSEResponse P inc
          ((frames.map renderFrame).flatten ++ doneFrame)).callbackEvents = [frames.length]
      ∧ (runChunks P inc [(frames.map renderFrame).flatten ++ doneFrame]).core.callbackEvents
        = framesEmitted 0 frames
      ∧ completionsOf (runChunks P inc
          [(frames.map renderFrame).flatten ++ doneFrame]).core.callbackEvents = [] := by
  have hclean : ∀ f ∈ frames, cleanPayload f.payload := fun f hf => (hwf f hf).1
  -- the buffered path
  have hrun : parseSSERun P inc ((frames.map renderFrame).flatten ++ doneFrame)
      = ⟨routeParseAll inc .init (framesContents frames),
         framesDeltas 0 frames,
         framesEmitted 0 frames ++ [.completionEvent frames.length],
         frames.length, 0⟩ := by
    unfold parseSSERun
    rw [parse_events_frames_done frames hclean, List.foldl_append,
      foldl_parseEvent_frames P inc frames hwf .init]
    simp only [List.foldl_cons, List.foldl_nil]
    rw [parseEvent_done]
    simp [ParseState.init]
  have hparse : parseSSEResponse P inc ((frames.map renderFrame).flatten ++ doneFrame)
      = { combinedDelta :=
            if (parseCombinedContent (routeParseAll inc .init (framesContents frames))).isEmpty
            then none
            else some ⟨parseCombinedContent (routeParseAll inc .init (framesContents frames))⟩,
          thinkingMessage :=
            if (routeParseAll inc .init (framesContents frames)).hasThinking
                && !(routeParseAll inc .init (framesContents frames)).thinkingContent.isEmpty then
              some (thinkingMessageOf (routeParseAll inc .init (framesContents frames)).thinkingContent)
            else none,
          deltas := framesDeltas 0 frames,
          totalDeltas := frames.length,
          callbackEvents := framesEmitted 0 frames ++ [.completionEvent frames.length],
          warnings := 0 } := by
    unfold parseSSEResponse
    rw [hrun]
  -- the live path
  have hlive : runChunks P inc [(frames.map renderFrame).flatten ++ doneFrame]
      = ⟨[], ⟨frames.length, routeLiveAll inc .init (framesContents frames),
             framesEmitted 0 frames, 0⟩⟩ := by
    rw [runChunks_eq_flatten]
    have hflat : ([(frames.map renderFrame).flatten ++ doneFrame] : List Str).flatten
        = (frames.map renderFrame).flatten ++ doneFrame := by simp
    rw [hflat]
    unfold feedChunk
    have hsp : splitNN (StreamState.init.buffer ++ ((frames.map renderFrame).flatten ++ doneFrame))
        = (frames.map (fun f => frameBody f.payload) ++ [doneBody]) ++ [[]] := by
      show splitNN ([] ++ ((frames.map renderFrame).flatten ++ doneFrame)) = _
      rw [List.nil_append, splitNN_frames_append frames doneFrame hclean]
      have hd : splitNN doneFrame = [doneBody, []] := by
        have h := splitNN_sep_cons doneBody [] (by decide) (by decide)
        simp only [doneFrame, doneBody] at h ⊢
        simp [splitNN] at h
        simp [splitNN, h]
      rw [hd]
      simp
    rw [hsp]
    simp only [List.dropLast_concat, List.getLastD_concat]
    rw [List.foldl_append, foldl_processEvent_frames P inc frames hwf StreamState.init.core]
    simp only [List.foldl_cons, List.foldl_nil]
    rw [show StreamState.init.core = StreamCore.init from rfl]
    rw [processEvent_done]
    simp [StreamCore.init]
  refine ⟨?_, ?_, ?_, ?_, ?_⟩
  · rw [hparse]
  · rw [hparse]
    exact framesDeltas_length 0 frames
  · rw [hparse]
    show completionsOf (framesEmitted 0 frames ++ [.completionEvent frames.length]) = _
    unfold completionsOf
    rw [List.filterMap_append]
    show completionsOf (framesEmitted 0 frames) ++ [frames.length] = [frames.length]
    rw [completionsOf_framesEmitted]
    rfl
  · rw [hlive]
  · rw [hlive]
    exact completionsOf_framesEmitted 0 frames


/-- The split of a frame run with one corrupt frame in the middle. -/
theorem splitNN_frames_corrupt (a b : List Frame) (cp : Str)
    (ha : ∀ f ∈ a, cleanPayload f.payload) (hb : ∀ f ∈ b, cleanPayload f.payload)
    (hcp : cleanPayload cp) :
    splitNN ((a.map renderFrame).flatten ++ renderPayload cp ++ (b.map renderFrame).flatten)
      = a.map (fun f => frameBody f.payload)
          ++ frameBody cp :: (b.map (fun f => frameBody f.payload) ++ [[]]) := by
  rw [List.append_assoc, splitNN_frames_append a _ ha]
  have h2 : renderPayload cp ++ (b.map renderFrame).flatten
      = frameBody cp ++ '\n' :: '\n' :: (b.map renderFrame).flatten := by
    simp [renderPayload]
  rw [h2, splitNN_sep_cons _ _ (hasNN_frameBody cp hcp) (getLast?_frameBody cp hcp),
    splitNN_flatten_frames b hb]

/-- Claim C3 (amended): a stream of N relevant frames of which exactly one
carries corrupt JSON yields N-1 emitted deltas, no exception (both decoders
are total functions of the stream), and one logged diagnostic — but the
corrupt frame does consume an index slot: with the corrupt frame at position
k = a.length + 1, the emitted indices are 1..k-1 followed by k+1..N, leaving
a gap at k, and the buffered parser's `totalDeltas` counts N, not N-1. -/
theorem C3_corrupt_frame_behaviour (P : PayloadParser) (inc : Bool)
    (a b : List Frame) (cp : Str)
    (hwa : ∀ f ∈ a, wfFrame P f) (hwb : ∀ f ∈ b, wfFrame P f)
    (hcp : corruptFor P cp) :
    deltaIndicesOf (runChunks P inc
        [(a.map renderFrame).flatten ++ renderPayload cp ++ (b.map renderFrame).flatten]).core.callbackEvents
        = List.range' 1 a.length ++ List.range' (a.length + 2) b.length
      ∧ (deltaIndicesOf (runChunks P inc
          [(a.map renderFrame).flatten ++ renderPayload cp ++ (b.map renderFrame).flatten]).core.callbackEvents).length
        = a.length + b.length
      ∧ (runChunks P inc
          [(a.map renderFrame).flatten ++ renderPayload cp ++ (b.map renderFrame).flatten]).core.warnings = 1
      ∧ (parseSSEResponse P inc
          ((a.map renderFrame).flatten ++ renderPayload cp ++ (b.map renderFrame).flatten)).deltas.length
        = a.length + b.length
      ∧ (parseSSEResponse P inc
          ((a.map renderFrame).flatten ++ renderPayload cp ++ (b.map renderFrame).flatten)).warnings = 1
      ∧ (parseSSEResponse P inc
          ((a.map renderFrame).flatten ++ renderPayload cp ++ (b.map renderFrame).flatten)).totalDeltas
        = a.length + 1 + b.length := by
  have hca : ∀ f ∈ a, cleanPayload f.payload := fun f hf => (hwa f hf).1
  have hcb : ∀ f ∈ b, cleanPayload f.payload := fun f hf => (hwb f hf).1
  have hsp := splitNN_frames_corrupt a b cp hca hcb hcp.1
  -- live side
  have hlive : (runChunks P inc
      [(a.map renderFrame).flatten ++ renderPayload cp ++ (b.map renderFrame).flatten]).core
      = ⟨a.length + 1 + b.length,
         routeLiveAll inc (routeLiveAll inc .init (framesContents a)) (framesContents b),
         framesEmitted 0 a ++ framesEmitted (a.length + 1) b,
         1⟩ := by
    rw [runChunks_eq_flatten]
    have hflat : ([((a.map renderFrame).flatten ++ renderPayload cp ++ (b.map renderFrame).flatten)] : List Str).flatten
        = (a.map renderFrame).flatten ++ renderPayload cp ++ (b.map renderFrame).flatten := by simp
    rw [hflat]
    unfold feedChunk
    rw [show StreamState.init.buffer = ([] : Str) from rfl, List.nil_append, hsp]
    have hre : a.map (fun f => frameBody f.payload)
          ++ frameBody cp :: (b.map (fun f => frameBody f.payload) ++ [[]])
        = ((a.map (fun f => frameBody f.payload)
            ++ frameBody cp :: b.map (fun f => frameBody f.payload)) ++ [[]]) := by
      simp
    rw [hre]
    simp only [List.dropLast_concat, List.getLastD_concat]
    rw [show a.map (fun f => frameBody f.payload) ++ frameBody cp :: b.map (fun f => frameBody f.payload)
        = a.map (fun f => frameBody f.payload) ++ [frameBody cp] ++ b.map (fun f => frameBody f.payload) from by simp]
    rw [List.foldl_append, List.foldl_append,
      foldl_processEvent_frames P inc a hwa StreamState.init.core]
    simp only [List.foldl_cons, List.foldl_nil]
    rw [processEvent_corrupt P inc _ cp hcp]
    rw [foldl_processEvent_frames P inc b hwb]
    simp [StreamState.init, StreamCore.init, LiveAgg.init]
  -- parse side
  have hevents : ((splitNN ((a.map renderFrame).flatten ++ renderPayload cp ++ (b.map renderFrame).flatten)).filter
        (fun e => !(trimChars e).isEmpty))
      = a.map (fun f => frameBody f.payload)
          ++ [frameBody cp] ++ b.map (fun f => frameBody f.payload) := by
    rw [hsp]
    have hfa : (a.map (fun f => frameBody f.payload)).filter (fun e => !(trimChars e).isEmpty)
        = a.map (fun f => frameBody f.payload) := by
      rw [List.filter_eq_self]
      intro x hx
      obtain ⟨f, _, rfl⟩ := List.mem_map.mp hx
      exact trim_frameBody_keep f.payload
    have hfb : (b.map (fun f => frameBody f.payload)).filter (fun e => !(trimChars e).isEmpty)
        = b.map (fun f => frameBody f.payload) := by
      rw [List.filter_eq_self]
      intro x hx
      obtain ⟨f, _, rfl⟩ := List.mem_map.mp hx
      exact trim_frameBody_keep f.payload
    rw [List.filter_append, hfa, List.filter_cons, if_pos (by simpa using trim_frameBody_keep cp),
      List.filter_append, hfb]
    simp [trimChars]
  have hrun : parseSSERun P inc
      ((a.map renderFrame).flatten ++ renderPayload cp ++ (b.map renderFrame).flatten)
      = ⟨routeParseAll inc (routeParseAll inc .init (framesContents a)) (framesContents b),
         framesDeltas 0 a ++ framesDeltas (a.length + 1) b,
         framesEmitted 0 a ++ framesEmitted (a.length + 1) b,
         a.length + 1 + b.length,
         1⟩ := by
    unfold parseSSERun
    rw [hevents, List.foldl_append, List.foldl_append,
      foldl_parseEvent_frames P inc a hwa .init]
    simp only [List.foldl_cons, List.foldl_nil]
    rw [parseEvent_corrupt P inc _ cp hcp]
    rw [foldl_parseEvent_frames P inc b hwb]
    simp [ParseState.init, ParseAgg.init]
  refine ⟨?_, ?_, ?_, ?_, ?_, ?_⟩
  · rw [hlive]
    show deltaIndicesOf (framesEmitted 0 a ++ framesEmitted (a.length + 1) b) = _
    unfold deltaIndicesOf
    rw [List.filterMap_append]
    show deltaIndicesOf (framesEmitted 0 a) ++ deltaIndicesOf (framesEmitted (a.length + 1) b) = _
    rw [deltaIndicesOf_framesEmitted, deltaIndicesOf_framesEmitted]
  · rw [hlive]
    show (deltaIndicesOf (framesEmitted 0 a ++ framesEmitted (a.length + 1) b)).length = _
    unfold deltaIndicesOf
    rw [List.filterMap_append]
    show (deltaIndicesOf (framesEmitted 0 a) ++ deltaIndicesOf (framesEmitted (a.length + 1) b)).length = _
    rw [deltaIndicesOf_framesEmitted, deltaIndicesOf_framesEmitted]
    simp
  · rw [hlive]
  · show (parseSSERun P inc _).deltas.length = _
    rw [hrun]
    show (framesDeltas 0 a ++ framesDeltas (a.length + 1) b).length = _
    rw [List.length_append, framesDeltas_length, framesDeltas_length]
  · show (parseSSERun P inc _).warnings = _
    rw [hrun]
  · show (parseSSERun P inc _).deltaCount = _
    rw [hrun]


/-- Claim C2 witness: two well-formed frames cut into three chunks that split
both frames mid-line yield delta indices `[1, 2]`, the exact single-chunk
state, and text concatenation `"Hello"`. -/
theorem C2_decoder_chunk_invariance_witness :
    (∀ f ∈ [frameA, frameB], wfFrame testParser f)
      ∧ c2Chunks.flatten = ([frameA, frameB].map renderFrame).flatten
      ∧ deltaIndicesOf (runChunks testParser false c2Chunks).core.callbackEvents = [1, 2]
      ∧ runChunks testParser false c2Chunks
          = runChunks testParser false [([frameA, frameB].map renderFrame).flatten]
      ∧ emittedTextConcat (runChunks testParser false c2Chunks).core.callbackEvents
          = "Hello".toList := by
  have hwf : ∀ f ∈ [frameA, frameB], wfFrame testParser f := by
    intro f hf
    rcases List.mem_cons.mp hf with rfl | hf2
    · exact ⟨⟨by decide, by decide, by decide⟩, rfl⟩
    · rcases List.mem_cons.mp hf2 with rfl | hf3
      · exact ⟨⟨by decide, by decide, by decide⟩, rfl⟩
      · cases hf3
  have hflat : c2Chunks.flatten = ([frameA, frameB].map renderFrame).flatten := rfl
  have h := C2_decoder_chunk_invariance testParser false [frameA, frameB] hwf c2Chunks hflat
  refine ⟨hwf, hflat, ?_, h.2.1, rfl⟩
  rw [h.1]
  rfl

/-- Claim C3 counterexample: with frames [good, corrupt, good], the live
decoder emits indices `[1, 3]` — two deltas, as N-1 predicts, but not the
contiguous `[1, 2]` the claim requires, because the corrupt frame consumed
index 2; the buffered parser records the same gapped indices. -/
theorem C3_counterexample_gap :
    deltaIndicesOf (runChunks testParser false [c3Chunk]).core.callbackEvents = [1, 3]
      ∧ ([1, 3] : List Nat) ≠ List.range' 1 2
      ∧ (runChunks testParser false [c3Chunk]).core.warnings = 1
      ∧ (parseSSEResponse testParser false c3Chunk).deltas.map SDelta.deltaIndex = [1, 3] := by
  exact ⟨rfl, by decide, rfl, rfl⟩

/-- Claim C3 witness for the amended statement, at frames [A], corrupt `BAD`,
frames [B]. -/
theorem C3_corrupt_frame_behaviour_witness :
    (∀ f ∈ [frameA], wfFrame testParser f)
      ∧ corruptFor testParser "BAD".toList
      ∧ deltaIndicesOf (runChunks testParser false
          [([frameA].map renderFrame).flatten ++ renderPayload "BAD".toList
            ++ ([frameB].map renderFrame).flatten]).core.callbackEvents = [1, 3]
      ∧ (runChunks testParser false
          [([frameA].map renderFrame).flatten ++ renderPayload "BAD".toList
            ++ ([frameB].map renderFrame).flatten]).core.warnings = 1
      ∧ (parseSSEResponse testParser false
          (([frameA].map renderFrame).flatten ++ renderPayload "BAD".toList
            ++ ([frameB].map renderFrame).flatten)).totalDeltas = 3 := by
  have hwa : ∀ f ∈ [frameA], wfFrame testParser f := by
    intro f hf
    rcases List.mem_cons.mp hf with rfl | hf2
    · exact ⟨⟨by decide, by decide, by decide⟩, rfl⟩
    · cases hf2
  have hwb : ∀ f ∈ [frameB], wfFrame testParser f := by
    intro f hf
    rcases List.mem_cons.mp hf with rfl | hf2
    · exact ⟨⟨by decide, by decide, by decide⟩, rfl⟩
    · cases hf2
  have hcp : corruptFor testParser "BAD".toList := ⟨⟨by decide, by decide, by decide⟩, rfl⟩
  have h := C3_corrupt_frame_behaviour testParser false [frameA] [frameB] "BAD".toList
    hwa hwb hcp
  refine ⟨hwa, hcp, ?_, h.2.2.1, ?_⟩
  · rw [h.1]
    rfl
  · rw [h.2.2.2.2.2]
    rfl

/-- Claim C6 counterexample: a one-delta stream followed by the completion
frame, on the live streaming path: the delta is emitted (index 1) but the
observer receives no completion notification at all, refuting the claim that
both paths deliver a `totalDeltas == N` completion notification. -/
theorem C6_counterexample_live_no_completion :
    deltaIndicesOf (runChunks testParser false c6Chunks).core.callbackEvents = [1]
      ∧ completionsOf (runChunks testParser false c6Chunks).core.callbackEvents = []
      ∧ ([] : List Nat) ≠ [1] := by
  exact ⟨rfl, rfl, by decide⟩

/-- Claim C6 witness for the amended statement, at one frame. -/
theorem C6_done_event_behaviour_witness :
    (∀ f ∈ [frameA], wfFrame testParser f)
      ∧ (parseSSEResponse testParser false
          (([frameA].map renderFrame).flatten ++ doneFrame)).deltas.length = 1
      ∧ completionsOf (parseSSEResponse testParser false
          (([frameA].map renderFrame).flatten ++ doneFrame)).callbackEvents = [1]
      ∧ completionsOf (runChunks testParser false
          [([frameA].map renderFrame).flatten ++ doneFrame]).core.callbackEvents = [] := by
  have hwf : ∀ f ∈ [frameA], wfFrame testParser f := by
    intro f hf
    rcases List.mem_cons.mp hf with rfl | hf2
    · exact ⟨⟨by decide, by decide, by decide⟩, rfl⟩
    · cases hf2
  have h := C6_done_event_behaviour testParser false [frameA] hwf
  exact ⟨hwf, h.2.1, h.2.2.1, h.2.2.2.2⟩


theorem parseRoute_liveToParse (inc : Bool) (la : LiveAgg) (c : ContentItem)
    (h : isToolUse c = false) :
    parseRoute inc (liveToParseAgg la) c = liveToParseAgg (liveRoute inc la c) := by
  cases c with
  | textItem t => rfl
  | toolUseItem tu => simp [isToolUse] at h
  | toolResultsItem tr => rfl
  | chartItem ch => rfl
  | thinkingItem th =>
    cases th with
    | none => rfl
    | some tv =>
      simp only [parseRoute, liveRoute]
      by_cases ht : tv.truthy = true
      · rw [if_pos ht, if_pos ht]
        by_cases hi : inc = true
        · rw [if_pos hi, if_pos hi]
          rfl
        · rw [if_neg hi, if_neg hi]
      · rw [if_neg ht, if_neg ht]
  | otherItem tag => rfl

theorem routeParseAll_liveToParse (inc : Bool) (items : List ContentItem)
    (h : ∀ c ∈ items, isToolUse c = false) (la : LiveAgg) :
    routeParseAll inc (liveToParseAgg la) items
      = liveToParseAgg (routeLiveAll inc la items) := by
  induction items generalizing la with
  | nil => rfl
  | cons c cs ih =>
    show routeParseAll inc _ (c :: cs) = _
    unfold routeParseAll routeLiveAll
    simp only [List.foldl_cons]
    rw [parseRoute_liveToParse inc la c (h c (by simp))]
    exact ih (fun d hd => h d (List.mem_cons_of_mem c hd)) (liveRoute inc la c)

/-- Claim C1 (amended): for content-item sequences containing no `tool_use`
item, the live and fallback routings build the same combined delta, and the
synthesizer turns both into identical SynthesizedResults. -/
theorem C1_parity_without_toolUse (inc : Bool) (items : List ContentItem)
    (h : ∀ c ∈ items, isToolUse c = false) (env : FormatEnv) :
    (liveRouteResult inc items).content = parseRouteResult inc items
      ∧ formatCortexAgentsResponse env (liveRouteResult inc items)
        = formatCortexAgentsResponse env ⟨parseRouteResult inc items⟩ := by
  have key : routeParseAll inc .init items
      = liveToParseAgg (routeLiveAll inc .init items) := by
    have := routeParseAll_liveToParse inc items h LiveAgg.init
    rwa [show liveToParseAgg LiveAgg.init = ParseAgg.init from rfl] at this
  have hcontent : (liveRouteResult inc items).content = parseRouteResult inc items := by
    unfold liveRouteResult parseRouteResult
    rw [key]
    unfold parseCombinedContent liveCombined liveToParseAgg
    simp
  refine ⟨hcontent, ?_⟩
  have : (⟨parseRouteResult inc items⟩ : CombinedDelta) = liveRouteResult inc items := by
    rw [← hcontent]
  rw [this]

/-- Claim C1 counterexample: two `tool_use` items (`DataAnalyst` then another
name).  The live path keeps both in the combined delta, the fallback path
keeps only the last, and the two synthesized results differ in `insights` —
so the two paths are not referentially identical. -/
theorem C1_counterexample_toolUse :
    (liveRouteResult false c1Items).content.length = 2
      ∧ (parseRouteResult false c1Items).length = 1
      ∧ (formatCortexAgentsResponse trivialFormatEnv (liveRouteResult false c1Items)).fst.insights
        = "Generated SQL query using Cortex Agents".toList
      ∧ (formatCortexAgentsResponse trivialFormatEnv ⟨parseRouteResult false c1Items⟩).fst.insights
        = defaultInsights
      ∧ "Generated SQL query using Cortex Agents".toList ≠ defaultInsights := by
  exact ⟨rfl, rfl, rfl, rfl, by decide⟩

/-- Claim C1 witness for the amended statement: a text, a `tool_results` and
a chart item (no `tool_use`) route identically through both paths. -/
theorem C1_parity_without_toolUse_witness :
    (∀ c ∈ ([.textItem (some "hi".toList),
             .toolResultsItem (some ⟨some [.jsonItem (some sqlJson)]⟩),
             .chartItem (some ⟨none⟩)] : List ContentItem), isToolUse c = false)
      ∧ (liveRouteResult false [.textItem (some "hi".toList),
            .toolResultsItem (some ⟨some [.jsonItem (some sqlJson)]⟩),
            .chartItem (some ⟨none⟩)]).content
        = parseRouteResult false [.textItem (some "hi".toList),
            .toolResultsItem (some ⟨some [.jsonItem (some sqlJson)]⟩),
            .chartItem (some ⟨none⟩)]
      ∧ formatCortexAgentsResponse failExecEnv (liveRouteResult false
            [.textItem (some "hi".toList),
             .toolResultsItem (some ⟨some [.jsonItem (some sqlJson)]⟩),
             .chartItem (some ⟨none⟩)])
        = formatCortexAgentsResponse failExecEnv
            ⟨parseRouteResult false [.textItem (some "hi".toList),
              .toolResultsItem (some ⟨some [.jsonItem (some sqlJson)]⟩),
              .chartItem (some ⟨none⟩)]⟩ := by
  have hno : ∀ c ∈ ([.textItem (some "hi".toList),
      .toolResultsItem (some ⟨some [.jsonItem (some sqlJson)]⟩),
      .chartItem (some ⟨none⟩)] : List ContentItem), isToolUse c = false := by
    intro c hc
    rcases List.mem_cons.mp hc with rfl | hc2
    · rfl
    · rcases List.mem_cons.mp hc2 with rfl | hc3
      · rfl
      · rcases List.mem_cons.mp hc3 with rfl | hc4
        · rfl
        · cases hc4
  have h := C1_parity_without_toolUse false _ hno failExecEnv
  exact ⟨hno, h.1, h.2⟩


/-- Claim C4: when the walk extracted a non-empty SQL text and the external
`executeQuery` throws, the synthesizer keeps the walk's `data` (rows)
unchanged, prefixes `insights` with the execution-failed marker carrying the
error message, records exactly one execution attempt, and still returns a
SynthesizedResult (tagged `cortex_agents_api`) rather than propagating the
exception. -/
theorem C4_sql_execution_failure (env : FormatEnv) (delta : CombinedDelta)
    (st : WalkState) (msg : Str)
    (hwalk : walkAll env .init delta.content = .ok st)
    (htrim : (trimChars st.sql).isEmpty = false)
    (hne : st.sql.isEmpty = false)
    (hexec : env.executeQuery st.sql = .error msg) :
    (formatCortexAgentsResponse env delta).fst.data = st.data
      ∧ (formatCortexAgentsResponse env delta).fst.insights
        = "SQL query provided but execution failed: ".toList ++ msg ++ ". ".toList ++ st.insights
      ∧ (formatCortexAgentsResponse env delta).fst.sql = st.sql
      ∧ (formatCortexAgentsResponse env delta).fst.source = "cortex_agents_api".toList
      ∧ (formatCortexAgentsResponse env delta).snd = [st.sql] := by
  unfold formatCortexAgentsResponse
  rw [hwalk]
  simp only [hne, htrim, Bool.not_false, Bool.and_self, if_true, hexec]
  unfold finishFormat
  simp

/-- Claim C4 witness: a `tool_results` JSON result carrying `SELECT 1` with
text `here`, against an executor that throws `boom`. -/
theorem C4_sql_execution_failure_witness :
    walkAll failExecEnv .init c4Delta.content
        = .ok ⟨[], [], "here".toList, [], "SELECT 1".toList⟩
      ∧ failExecEnv.executeQuery "SELECT 1".toList = .error "boom".toList
      ∧ (formatCortexAgentsResponse failExecEnv c4Delta).fst.data = []
      ∧ (formatCortexAgentsResponse failExecEnv c4Delta).fst.insights
        = "SQL query provided but execution failed: boom. here".toList
      ∧ (formatCortexAgentsResponse failExecEnv c4Delta).snd = ["SELECT 1".toList] := by
  have h := C4_sql_execution_failure failExecEnv c4Delta
    ⟨[], [], "here".toList, [], "SELECT 1".toList⟩ "boom".toList rfl rfl rfl rfl
  exact ⟨rfl, rfl, h.1, h.2.1, h.2.2.2.2⟩

/-- Claim C5 (amended): on the live streaming path a zero-delta stream still
yields a full SynthesizedResult (fallback summary, empty rows, default
insights, empty sql); but on the buffered fallback path a parse that
accumulates no content yields `combinedDelta = null` and the SSE branch of
`callCortexAgentsAPI` falls through to `return null`, so the caller receives
the basic fallback query result instead. -/
theorem C5_zero_delta_behaviour (env : FormatEnv) (P : PayloadParser) (inc : Bool) :
    formatCortexAgentsResponse env ⟨[]⟩
        = (⟨"Query processed successfully.".toList, [], defaultInsights,
            "cortex_agents_api".toList, [], []⟩, [])
      ∧ livePathOutcome env P inc []
        = .single ⟨"Query processed successfully.".toList, [], defaultInsights,
            "cortex_agents_api".toList, [], []⟩
      ∧ (∀ s : Str, (parseSSEResponse P inc s).combinedDelta = none →
          sseBranchOutcome env P inc s = none) := by
  refine ⟨rfl, rfl, ?_⟩
  intro s hs
  simp only [sseBranchOutcome, hs]

/-- Claim C5 witness: an SSE blob containing the delta marker but no `data:`
line parses to zero deltas; the live path on the same (empty) stream returns
the fallback result while the buffered branch returns null. -/
theorem C5_zero_delta_behaviour_witness :
    (parseSSEResponse testParser false
        ("event: message.delta".toList ++ ['\n', '\n'])).combinedDelta = none
      ∧ sseBranchOutcome trivialFormatEnv testParser false
          ("event: message.delta".toList ++ ['\n', '\n']) = none
      ∧ livePathOutcome trivialFormatEnv testParser false []
        = .single ⟨"Query processed successfully.".toList, [], defaultInsights,
            "cortex_agents_api".toList, [], []⟩ := by
  have h := C5_zero_delta_behaviour trivialFormatEnv testParser false
  exact ⟨rfl, h.2.2 _ rfl, h.2.1⟩

/-- Claim C5 counterexample (for the claim as stated): a zero-delta buffered
response makes `callCortexAgentsAPI` return null — the core does not always
return a SynthesizedResult for an empty aggregate. -/
theorem C5_counterexample_buffered_null :
    callCortexAgentsAPI trivialFormatEnv testParser false c5Env = none := rfl

/-- Claim C7: the synthetic reasoning message built from accumulated thinking
text is a single text item; synthesizing it never reaches the SQL-execution
branch — `executeQuery` is not invoked — whatever the thinking text contains
and whatever the execution environment would do. -/
theorem C7_reasoning_skips_sql_execution (env : FormatEnv) (tc : Str) (_h : tc ≠ []) :
    (formatCortexAgentsResponse env (thinkingMessageOf tc)).snd = []
      ∧ (formatCortexAgentsResponse env (thinkingMessageOf tc)).fst.sql = [] := by
  exact ⟨rfl, rfl⟩

/-- Claim C7 witness: thinking text that is SQL-shaped still triggers no
execution, even against an executor that would return rows. -/
theorem C7_reasoning_skips_sql_execution_witness :
    ("SELECT 1 FROM t".toList : Str) ≠ []
      ∧ (formatCortexAgentsResponse trivialFormatEnv
          (thinkingMessageOf "SELECT 1 FROM t".toList)).snd = [] := by
  exact ⟨by decide, (C7_reasoning_skips_sql_execution trivialFormatEnv
    "SELECT 1 FROM t".toList (by decide)).1⟩

/-- Claim C10: a null token provider makes `callCortexAgentsAPI` return null
regardless of the agent name and of the configuration lookup's outcome (the
lookup is never consulted), and `queryWithCortexAgents` then hands the caller
the basic fallback query result — never a `configuration_error` result. -/
theorem C10_null_token_precedence (fenv : FormatEnv) (P : PayloadParser) (inc : Bool)
    (env : ApiEnv) (tables : Except Str (List Json))
    (h : env.accessToken = none) :
    callCortexAgentsAPI fenv P inc env = none
      ∧ queryWithCortexAgents fenv P inc env tables
        = .single (fallbackToBasicQuery tables)
      ∧ (fallbackToBasicQuery tables).source ≠ "configuration_error".toList := by
  have h1 : callCortexAgentsAPI fenv P inc env = none := by
    unfold callCortexAgentsAPI
    rw [h]
  refine ⟨h1, ?_, ?_⟩
  · unfold queryWithCortexAgents
    rw [h1]
  · cases tables with
    | ok t => simp [fallbackToBasicQuery]
    | error e => simp [fallbackToBasicQuery]

/-- Claim C10 witness: a concrete environment with a null token, no agent
name, and an HTTP error response falls through to the fallback query. -/
theorem C10_null_token_precedence_witness :
    c10Env.accessToken = none
      ∧ callCortexAgentsAPI trivialFormatEnv testParser false c10Env = none
      ∧ queryWithCortexAgents trivialFormatEnv testParser false c10Env (.ok [])
        = .single (fallbackToBasicQuery (.ok [])) := by
  have h := C10_null_token_precedence trivialFormatEnv testParser false c10Env (.ok []) rfl
  exact ⟨rfl, h.1, h.2.1⟩


theorem walkResultItem_charts (st : WalkState) (r : ResItem) :
    (walkResultItem st r).charts = st.charts := by
  cases r with
  | jsonItem v =>
    cases v with
    | none => rfl
    | some j =>
      dsimp only [walkResultItem]
      split <;> split <;> rfl
  | csvItem t => rfl
  | otherItem => rfl

theorem foldl_walkResultItem_charts (st : WalkState) (items : List ResItem) :
    (items.foldl walkResultItem st).charts = st.charts := by
  induction items generalizing st with
  | nil => rfl
  | cons r rs ih => rw [List.foldl_cons, ih, walkResultItem_charts]

theorem walkAll_charts (env : FormatEnv) (cs : List ContentItem)
    (hparse : ∀ c ∈ cs, chartSpecParses env c) (st : WalkState) :
    ∃ st', walkAll env st cs = .ok st'
      ∧ st'.charts = st.charts ++ cs.filterMap (expectedChartEntry env) := by
  induction cs generalizing st with
  | nil => exact ⟨st, rfl, by simp⟩
  | cons c cs ih =>
    have htail : ∀ d ∈ cs, chartSpecParses env d :=
      fun d hd => hparse d (List.mem_cons_of_mem c hd)
    have hstep : ∃ st1, walkContent env st c = .ok st1
        ∧ st1.charts = st.charts ++ (expectedChartEntry env c).toList := by
      cases c with
      | textItem t => exact ⟨_, rfl, by simp [expectedChartEntry]⟩
      | toolUseItem tu =>
        cases tu with
        | none => exact ⟨_, rfl, by simp [expectedChartEntry]⟩
        | some obj =>
          dsimp only [walkContent]
          by_cases hn : obj.name = some "DataAnalyst".toList
          · rw [if_pos hn]
            exact ⟨_, rfl, by simp [expectedChartEntry]⟩
          · rw [if_neg hn]
            exact ⟨_, rfl, by simp [expectedChartEntry]⟩
      | toolResultsItem tr =>
        cases tr with
        | none => exact ⟨_, rfl, by simp [expectedChartEntry]⟩
        | some obj =>
          cases hco : obj.content with
          | none =>
            refine ⟨st, ?_, by simp [expectedChartEntry]⟩
            dsimp only [walkContent]
            rw [hco]
          | some items =>
            refine ⟨items.foldl walkResultItem st, ?_, ?_⟩
            · dsimp only [walkContent]
              rw [hco]
            · rw [foldl_walkResultItem_charts]
              simp [expectedChartEntry]
      | chartItem ch =>
        cases ch with
        | none => exact ⟨_, rfl, by simp [expectedChartEntry]⟩
        | some obj =>
          cases hcs : obj.chart_spec with
          | none =>
            refine ⟨st, ?_, by simp [expectedChartEntry, hcs]⟩
            dsimp only [walkContent]
            rw [hcs]
          | some spec =>
            by_cases hemp : spec.isEmpty = true
            · refine ⟨st, ?_, ?_⟩
              · dsimp only [walkContent]
                rw [hcs]
                dsimp only
                rw [if_pos hemp]
              · simp [expectedChartEntry, hcs, hemp]
            · have hp := hparse (ContentItem.chartItem (some obj)) (by simp)
              dsimp only [chartSpecParses] at hp
              rw [hcs] at hp
              dsimp only at hp
              have hps : (env.parseJson spec).isSome := by
                apply hp
                simpa using hemp
              obtain ⟨j, hj⟩ := Option.isSome_iff_exists.mp hps
              refine ⟨⟨st.summary, st.data,
                  st.insights ++ " Chart visualization included.".toList,
                  st.charts ++ [⟨"vega-lite".toList, j⟩], st.sql⟩, ?_, ?_⟩
              · dsimp only [walkContent]
                rw [hcs]
                dsimp only
                rw [if_neg hemp, hj]
              · simp [expectedChartEntry, hcs, hemp, hj]
      | thinkingItem th => exact ⟨_, rfl, by simp [expectedChartEntry]⟩
      | otherItem tag => exact ⟨_, rfl, by simp [expectedChartEntry]⟩
    obtain ⟨st1, hs1, hc1⟩ := hstep
    obtain ⟨st', hw', hc'⟩ := ih htail st1
    refine ⟨st', ?_, ?_⟩
    · show (c :: cs).foldlM (walkContent env) st = .ok st'
      rw [List.foldlM_cons, hs1]
      exact hw'
    · rw [hc', hc1, List.filterMap_cons]
      cases expectedChartEntry env c <;> simp

theorem finishFormat_charts (w : WalkState) (calls : List Str) :
    (finishFormat w calls).fst.charts = w.charts := rfl

theorem finishFormat_insights (w : WalkState) (calls : List Str) :
    (finishFormat w calls).fst.insights = w.insights := rfl

theorem format_charts_of_walk (env : FormatEnv) (delta : CombinedDelta) (st' : WalkState)
    (hw : walkAll env .init delta.content = .ok st') :
    (formatCortexAgentsResponse env delta).fst.charts = st'.charts := by
  unfold formatCortexAgentsResponse
  rw [hw]
  dsimp only
  by_cases hc : (!st'.sql.isEmpty && !(trimChars st'.sql).isEmpty) = true
  · rw [if_pos hc]
    cases env.executeQuery st'.sql with
    | ok rows =>
      dsimp only
      by_cases hr : (!rows.isEmpty) = true
      · rw [if_pos hr]
        exact finishFormat_charts _ _
      · rw [if_neg hr]
        exact finishFormat_charts _ _
    | error msg =>
      dsimp only
      exact finishFormat_charts _ _
  · rw [if_neg hc]
    exact finishFormat_charts _ _


theorem walkAll_no_tools_insights (env : FormatEnv) (cs : List ContentItem)
    (hparse : ∀ c ∈ cs, chartSpecParses env c)
    (hnotool : ∀ c ∈ cs, isToolItem c = false) (st : WalkState) :
    ∃ st', walkAll env st cs = .ok st'
      ∧ st'.insights = st.insights
          ++ (List.replicate (cs.filterMap (expectedChartEntry env)).length chartNote).flatten
      ∧ st'.sql = st.sql := by
  induction cs generalizing st with
  | nil => exact ⟨st, rfl, by simp, rfl⟩
  | cons c cs ih =>
    have htail : ∀ d ∈ cs, chartSpecParses env d :=
      fun d hd => hparse d (List.mem_cons_of_mem c hd)
    have htail2 : ∀ d ∈ cs, isToolItem d = false :=
      fun d hd => hnotool d (List.mem_cons_of_mem c hd)
    have hstep : ∃ st1, walkContent env st c = .ok st1
        ∧ st1.insights = st.insights
            ++ (if (expectedChartEntry env c).isSome then chartNote else [])
        ∧ st1.sql = st.sql := by
      cases c with
      | textItem t => exact ⟨_, rfl, by simp [expectedChartEntry], rfl⟩
      | toolUseItem tu => simp [isToolItem] at hnotool
      | toolResultsItem tr => simp [isToolItem] at hnotool
      | chartItem ch =>
        cases ch with
        | none => exact ⟨_, rfl, by simp [expectedChartEntry], rfl⟩
        | some obj =>
          cases hcs : obj.chart_spec with
          | none =>
            refine ⟨st, ?_, by simp [expectedChartEntry, hcs], rfl⟩
            dsimp only [walkContent]
            rw [hcs]
          | some spec =>
            by_cases hemp : spec.isEmpty = true
            · refine ⟨st, ?_, by simp [expectedChartEntry, hcs, hemp], rfl⟩
              dsimp only [walkContent]
              rw [hcs]
              dsimp only
              rw [if_pos hemp]
            · have hp := hparse (ContentItem.chartItem (some obj)) (by simp)
              dsimp only [chartSpecParses] at hp
              rw [hcs] at hp
              dsimp only at hp
              obtain ⟨j, hj⟩ := Option.isSome_iff_exists.mp (hp (by simpa using hemp))
              refine ⟨⟨st.summary, st.data,
                  st.insights ++ " Chart visualization included.".toList,
                  st.charts ++ [⟨"vega-lite".toList, j⟩], st.sql⟩, ?_, ?_, rfl⟩
              · dsimp only [walkContent]
                rw [hcs]
                dsimp only
                rw [if_neg hemp, hj]
              · simp [expectedChartEntry, hcs, hemp, hj, chartNote]
      | thinkingItem th => exact ⟨_, rfl, by simp [expectedChartEntry], rfl⟩
      | otherItem tag => exact ⟨_, rfl, by simp [expectedChartEntry], rfl⟩
    obtain ⟨st1, hs1, hi1, hq1⟩ := hstep
    obtain ⟨st', hw', hi', hq'⟩ := ih htail htail2 st1
    refine ⟨st', ?_, ?_, by rw [hq', hq1]⟩
    · show (c :: cs).foldlM (walkContent env) st = .ok st'
      rw [List.foldlM_cons, hs1]
      exact hw'
    · rw [hi', hi1, List.filterMap_cons]
      cases hec : expectedChartEntry env c with
      | none => simp [hec]
      | some e => simp [List.replicate_succ]


/-- Claim C8 (amended): every chart item carrying a (non-empty, parseable)
serialized chart-spec string contributes, in order, an entry
`\x7btype: "vega-lite", spec: JSON.parse(chart_spec)\x7d` — not
`"chart-spec"` — to the output charts list; and when the aggregate holds no
tool items, `insights` is the default string with the fixed chart note
appended once per chart entry. -/
theorem C8_chart_entries (env : FormatEnv) (delta : CombinedDelta)
    (hparse : ∀ c ∈ delta.content, chartSpecParses env c) :
    (formatCortexAgentsResponse env delta).fst.charts
        = delta.content.filterMap (expectedChartEntry env)
      ∧ ((∀ c ∈ delta.content, isToolItem c = false) →
          (formatCortexAgentsResponse env delta).fst.insights
            = defaultInsights
                ++ (List.replicate (delta.content.filterMap (expectedChartEntry env)).length
                      chartNote).flatten) := by
  constructor
  · obtain ⟨st', hw, hch⟩ := walkAll_charts env delta.content hparse .init
    rw [format_charts_of_walk env delta st' hw, hch]
    rfl
  · intro hnotool
    obtain ⟨st', hw, hins, hsql⟩ :=
      walkAll_no_tools_insights env delta.content hparse hnotool .init
    unfold formatCortexAgentsResponse
    rw [hw]
    dsimp only
    rw [if_neg (by rw [hsql]; decide)]
    rw [finishFormat_insights, hins]
    rfl

/-- Claim C8 counterexample: a chart item whose spec parses produces the
entry type `"vega-lite"`, not the claimed `"chart-spec"`. -/
theorem C8_counterexample_chart_type :
    (formatCortexAgentsResponse chartEnv c8Delta).fst.charts.map ChartEntry.ctype
        = ["vega-lite".toList]
      ∧ "vega-lite".toList ≠ "chart-spec".toList
      ∧ (formatCortexAgentsResponse chartEnv c8Delta).fst.insights
        = defaultInsights ++ chartNote := by
  exact ⟨rfl, by decide, rfl⟩

/-- Claim C8 witness for the amended statement: one parsing chart item plus a
non-parsing-spec-free text item. -/
theorem C8_chart_entries_witness :
    (∀ c ∈ ([.textItem (some "hi".toList), .chartItem (some ⟨some "SPEC".toList⟩)]
        : List ContentItem), chartSpecParses chartEnv c)
      ∧ (formatCortexAgentsResponse chartEnv
          ⟨[.textItem (some "hi".toList), .chartItem (some ⟨some "SPEC".toList⟩)]⟩).fst.charts
        = [⟨"vega-lite".toList, chartSpecJson⟩]
      ∧ (formatCortexAgentsResponse chartEnv
          ⟨[.textItem (some "hi".toList), .chartItem (some ⟨some "SPEC".toList⟩)]⟩).fst.insights
        = defaultInsights ++ chartNote := by
  have hp : ∀ c ∈ ([.textItem (some "hi".toList), .chartItem (some ⟨some "SPEC".toList⟩)]
      : List ContentItem), chartSpecParses chartEnv c := by
    intro c hc
    rcases List.mem_cons.mp hc with rfl | hc2
    · trivial
    · rcases List.mem_cons.mp hc2 with rfl | hc3
      · intro hne
        rfl
      · cases hc3
  have hnt : ∀ c ∈ ([.textItem (some "hi".toList), .chartItem (some ⟨some "SPEC".toList⟩)]
      : List ContentItem), isToolItem c = false := by
    intro c hc
    rcases List.mem_cons.mp hc with rfl | hc2
    · rfl
    · rcases List.mem_cons.mp hc2 with rfl | hc3
      · rfl
      · cases hc3
  have h := C8_chart_entries chartEnv
    ⟨[.textItem (some "hi".toList), .chartItem (some ⟨some "SPEC".toList⟩)]⟩ hp
  refine ⟨hp, ?_, ?_⟩
  · rw [h.1]
    rfl
  · rw [h.2 hnt]
    rfl


theorem dropWhile_append_of_ne_nil {p : Char → Bool} {x : Str} (z : Str)
    (h : x.dropWhile p ≠ []) : (x ++ z).dropWhile p = x.dropWhile p ++ z := by
  induction x with
  | nil => exact absurd rfl h
  | cons a x' ih =>
    by_cases hp : p a = true
    · have hR : (a :: x').dropWhile p = x'.dropWhile p := by
        rw [List.dropWhile_cons, if_pos hp]
      have hL : ((a :: x') ++ z).dropWhile p = (x' ++ z).dropWhile p := by
        rw [List.cons_append, List.dropWhile_cons, if_pos hp]
      rw [hL, hR]
      rw [hR] at h
      exact ih h
    · have hR : (a :: x').dropWhile p = a :: x' := by
        rw [List.dropWhile_cons, if_neg hp]
      have hL : ((a :: x') ++ z).dropWhile p = a :: (x' ++ z) := by
        rw [List.cons_append, List.dropWhile_cons, if_neg hp]
      rw [hL, hR, List.cons_append]

/-- Appending trailing whitespace does not change the trimmed value. -/
theorem trimChars_append_ws (x : Str) (c : Char) (hc : isWSChar c = true) :
    trimChars (x ++ [c]) = trimChars x := by
  unfold trimChars
  by_cases h : x.dropWhile isWSChar = []
  · have h2 : (x ++ [c]).dropWhile isWSChar = [] := by
      induction x with
      | nil => simp [List.dropWhile_cons, hc]
      | cons a x' ih =>
        rw [List.dropWhile_cons] at h
        by_cases hp : isWSChar a = true
        · rw [if_pos hp] at h
          rw [List.cons_append, List.dropWhile_cons, if_pos hp]
          exact ih h
        · rw [if_neg hp] at h
          cases h
    rw [h, h2]
  · rw [dropWhile_append_of_ne_nil [c] h, List.reverse_append]
    show ((c :: (x.dropWhile isWSChar).reverse).dropWhile isWSChar).reverse = _
    rw [List.dropWhile_cons, if_pos hc]

/-- A non-empty string whose first and last characters are not whitespace is
unchanged by `trim()`. -/
theorem trimChars_eq_self (x : Str) (hne : x ≠ [])
    (hh : isWSChar (x.headD ' ') = false)
    (hl : isWSChar (x.getLastD ' ') = false) : trimChars x = x := by
  obtain ⟨c, rest, rfl⟩ := List.exists_cons_of_ne_nil hne
  unfold trimChars
  simp only [List.headD_cons] at hh
  have h1 : (c :: rest).dropWhile isWSChar = c :: rest := by
    rw [List.dropWhile_cons, if_neg (by simp [hh])]
  rw [h1]
  have h2 : (c :: rest).reverse.dropWhile isWSChar = (c :: rest).reverse := by
    have hrev : (c :: rest).reverse.headD ' ' = (c :: rest).getLastD ' ' := by
      rw [List.headD_eq_head?, List.getLastD_eq_getLast?, List.head?_reverse]
    cases hx : (c :: rest).reverse with
    | nil => rfl
    | cons d rev' =>
      rw [List.dropWhile_cons]
      rw [hx] at hrev
      simp only [List.headD_cons] at hrev
      rw [if_neg (by
        rw [hrev]
        rw [List.getLastD_eq_getLast?] at hl
        simp [hl])]
  rw [h2, List.reverse_reverse]


theorem cleanCSVField_spec {s : Str} (h : cleanCSVField s = true) :
    s ≠ [] ∧ (∀ c ∈ s, c ≠ ',' ∧ c ≠ '"' ∧ c ≠ '\n' ∧ c ≠ '\r')
      ∧ isWSChar (s.headD ' ') = false ∧ isWSChar (s.getLastD ' ') = false := by
  unfold cleanCSVField at h
  simp only [Bool.and_eq_true, Bool.not_eq_true', List.all_eq_true] at h
  obtain ⟨⟨⟨h1, h2⟩, h3⟩, h4⟩ := h
  refine ⟨by simpa [List.isEmpty_iff] using h1, ?_, h3, h4⟩
  intro c hc
  have := h2 c hc
  simp only [Bool.not_eq_true', Bool.or_eq_false_iff, beq_eq_false_iff_ne] at this
  exact ⟨this.1.1.1, this.1.1.2, this.1.2, this.2⟩

theorem escapeCSVField_clean {s : Str} (h : cleanCSVField s = true) :
    escapeCSVField s = s := by
  obtain ⟨_, h2, _, _⟩ := cleanCSVField_spec h
  unfold escapeCSVField
  rw [if_neg]
  simp only [List.any_eq_true]
  rintro ⟨c, hc, hbad⟩
  obtain ⟨hα, hβ, hγ, hδ⟩ := h2 c hc
  simp [hα, hβ, hγ, hδ] at hbad

theorem trimChars_clean {s : Str} (h : cleanCSVField s = true) : trimChars s = s := by
  obtain ⟨h1, _, h3, h4⟩ := cleanCSVField_spec h
  exact trimChars_eq_self s h1 h3 h4

theorem dequoteTrim_clean {s : Str} (h : cleanCSVField s = true) : dequoteTrim s = s := by
  obtain ⟨_, h2, _, _⟩ := cleanCSVField_spec h
  unfold dequoteTrim
  rw [trimChars_clean h, List.filter_eq_self.mpr]
  intro c hc
  simp [(h2 c hc).2.1]

theorem map_eq_self_of_eq {α : Type} (l : List α) (f : α → α)
    (h : ∀ x ∈ l, f x = x) : l.map f = l := by
  induction l with
  | nil => rfl
  | cons a l ih =>
    rw [List.map_cons, h a (by simp), ih (fun x hx => h x (List.mem_cons_of_mem a hx))]

theorem intercalate_cons2 (c : Char) (l l2 : Str) (ls : List Str) :
    List.intercalate [c] (l :: l2 :: ls) = l ++ c :: List.intercalate [c] (l2 :: ls) := by
  simp [List.intercalate, List.intersperse]

theorem intercalate_one (c : Char) (l : Str) : List.intercalate [c] [l] = l := by
  simp [List.intercalate]

theorem intercalate_ne_nil (c : Char) (ls : List Str) (hls : ls ≠ [])
    (h : ∀ l ∈ ls, l ≠ []) : List.intercalate [c] ls ≠ [] := by
  cases ls with
  | nil => exact absurd rfl hls
  | cons l rest =>
    cases rest with
    | nil =>
      rw [intercalate_one]
      exact h l (by simp)
    | cons l2 ls' =>
      rw [intercalate_cons2]
      have := h l (by simp)
      simp [this]

theorem head?_append_left {α : Type} (l l2 : List α) (h : l ≠ []) :
    (l ++ l2).head? = l.head? := by
  cases l with
  | nil => exact absurd rfl h
  | cons a rest => rfl

theorem intercalate_headD (c : Char) (l : Str) (rest : List Str) (hl : l ≠ []) :
    (List.intercalate [c] (l :: rest)).headD ' ' = l.headD ' ' := by
  cases rest with
  | nil => rw [intercalate_one]
  | cons l2 ls =>
    rw [intercalate_cons2, List.headD_eq_head?, List.headD_eq_head?,
      head?_append_left _ _ hl]

theorem intercalate_getLast? (c : Char) (ls : List Str) (hls : ls ≠ [])
    (h : ∀ l ∈ ls, l ≠ []) :
    (List.intercalate [c] ls).getLast? = (ls.getLastD []).getLast? := by
  induction ls with
  | nil => exact absurd rfl hls
  | cons l rest ih =>
    cases rest with
    | nil =>
      rw [intercalate_one]
      rfl
    | cons l2 ls' =>
      rw [intercalate_cons2]
      have hne : List.intercalate [c] (l2 :: ls') ≠ [] :=
        intercalate_ne_nil c _ (by simp) (fun x hx => h x (List.mem_cons_of_mem l hx))
      rw [List.getLast?_append_of_ne_nil _ (by simp : (c :: List.intercalate [c] (l2 :: ls')) ≠ [])]
      rw [show (c :: List.intercalate [c] (l2 :: ls')) = [c] ++ List.intercalate [c] (l2 :: ls') from rfl]
      rw [List.getLast?_append_of_ne_nil _ hne]
      rw [ih (by simp) (fun x hx => h x (List.mem_cons_of_mem l hx))]
      simp [List.getLastD_cons]

theorem mem_intercalate {c : Char} {x : Char} {ls : List Str}
    (hx : x ∈ List.intercalate [c] ls) : x = c ∨ ∃ l ∈ ls, x ∈ l := by
  induction ls with
  | nil => simp [List.intercalate] at hx
  | cons l rest ih =>
    cases rest with
    | nil =>
      rw [intercalate_one] at hx
      exact Or.inr ⟨l, by simp, hx⟩
    | cons l2 ls' =>
      rw [intercalate_cons2] at hx
      rcases List.mem_append.mp hx with hm | hm
      · exact Or.inr ⟨l, by simp, hm⟩
      · rcases List.mem_cons.mp hm with rfl | hm2
        · exact Or.inl rfl
        · rcases ih hm2 with hc | ⟨l', hl', hxl'⟩
          · exact Or.inl hc
          · exact Or.inr ⟨l', List.mem_cons_of_mem l hl', hxl'⟩


theorem addColsOfRow_fresh (row : List (Str × Str)) (acc : List Str)
    (hnodup : (row.map Prod.fst).Nodup)
    (hfresh : ∀ k ∈ row.map Prod.fst, k ∉ acc) :
    addColsOfRow acc row = acc ++ row.map Prod.fst := by
  induction row generalizing acc with
  | nil => simp [addColsOfRow]
  | cons p row' ih =>
    show List.foldl _ _ (p :: row') = _
    rw [List.foldl_cons]
    have hnc : acc.contains p.fst = false := by
      have := hfresh p.fst (by simp)
      simpa using this
    rw [if_neg (by simp [hnc] at hnc ⊢; exact hnc)]
    simp only [List.map_cons, List.nodup_cons] at hnodup
    have := ih (acc ++ [p.fst]) hnodup.2 ?hfresh
    case hfresh =>
      intro k hk
      rw [List.mem_append]
      rintro (hk2 | hk2)
      · exact hfresh k (by simp [hk]) hk2
      · simp at hk2
        exact hnodup.1 (hk2 ▸ hk)
    show addColsOfRow (acc ++ [p.fst]) row' = acc ++ (p :: row').map Prod.fst
    rw [this]
    simp

theorem addColsOfRow_subset (row : List (Str × Str)) (acc : List Str)
    (h : ∀ k ∈ row.map Prod.fst, k ∈ acc) :
    addColsOfRow acc row = acc := by
  induction row generalizing acc with
  | nil => rfl
  | cons p row' ih =>
    show List.foldl _ _ (p :: row') = _
    rw [List.foldl_cons]
    have hc : acc.contains p.fst = true := by
      have := h p.fst (by simp)
      simpa using this
    rw [if_pos hc]
    exact ih acc (fun k hk => h k (by simp [hk]))

theorem columnsUnion_const (data : List (List (Str × Str))) (K : List Str)
    (hK : K.Nodup) (hkeys : ∀ r ∈ data, r.map Prod.fst = K) (hne : data ≠ []) :
    columnsUnion data = K := by
  cases data with
  | nil => exact absurd rfl hne
  | cons r rest =>
    show List.foldl addColsOfRow (addColsOfRow [] r) rest = K
    have h0 : addColsOfRow [] r = K := by
      rw [addColsOfRow_fresh r [] (by rw [hkeys r (by simp)]; exact hK) (by simp),
        hkeys r (by simp), List.nil_append]
    rw [h0]
    have : ∀ rest2, (∀ r2 ∈ rest2, r2.map Prod.fst = K) →
        List.foldl addColsOfRow K rest2 = K := by
      intro rest2
      induction rest2 with
      | nil => intro _; rfl
      | cons r2 rest' ih2 =>
        intro hall
        rw [List.foldl_cons, addColsOfRow_subset r2 K
          (by rw [hall r2 (by simp)]; exact fun k hk => hk)]
        exact ih2 (fun x hx => hall x (List.mem_cons_of_mem r2 hx))
    exact this rest (fun x hx => hkeys x (List.mem_cons_of_mem r hx))

theorem csvRowCells_eq_values (r : List (Str × Str))
    (hnodup : (r.map Prod.fst).Nodup) :
    csvRowCells (r.map Prod.fst) r = r.map Prod.snd := by
  induction r with
  | nil => rfl
  | cons p r' ih =>
    simp only [List.map_cons, List.nodup_cons] at hnodup ⊢
    unfold csvRowCells
    rw [List.map_cons]
    refine congrArg₂ List.cons ?_ ?_
    · show (match (p :: r').lookup p.fst with | some v => v | none => []) = p.snd
      have : (p :: r').lookup p.fst = some p.snd := by
        show List.lookup p.fst ((p.fst, p.snd) :: r') = some p.snd
        simp [List.lookup]
      rw [this]
    · have hcong : (r'.map Prod.fst).map
          (fun col => match (p :: r').lookup col with | some v => v | none => [])
          = (r'.map Prod.fst).map
            (fun col => match r'.lookup col with | some v => v | none => []) := by
        apply List.map_congr_left
        intro k hk
        have hne : (k == p.fst) = false := by
          have hne2 : p.fst ≠ k := fun hc => hnodup.1 (hc ▸ hk)
          simpa using Ne.symm hne2
        show (match List.lookup k ((p.fst, p.snd) :: r') with | some v => v | none => [])
          = _
        rw [show List.lookup k ((p.fst, p.snd) :: r') = List.lookup k r' from by
          simp [List.lookup, hne]]
      rw [hcong]
      exact ih hnodup.2


theorem jsObjSet_fresh (fs : List (Str × Json)) (k : Str) (v : Json)
    (h : ∀ p ∈ fs, p.fst ≠ k) : jsObjSet fs k v = fs ++ [(k, v)] := by
  unfold jsObjSet
  rw [if_neg]
  simp only [List.any_eq_true]
  rintro ⟨p, hp, hbeq⟩
  exact h p hp (by simpa using hbeq)

theorem buildCSVRow_foldl (r : List (Str × Str)) (n : Nat) (vsFull : List Str)
    (hnodup : (r.map Prod.fst).Nodup)
    (hvals : ∀ i, vsFull.getD (n + i) [] = (r.map Prod.snd).getD i [])
    (acc : List (Str × Json))
    (hfresh : ∀ p ∈ acc, ∀ k ∈ r.map Prod.fst, p.fst ≠ k) :
    (List.enumFrom n (r.map Prod.fst)).foldl
        (fun a q => jsObjSet a q.snd (.str (vsFull.getD q.fst []))) acc
      = acc ++ r.map (fun p => (p.fst, Json.str p.snd)) := by
  induction r generalizing n acc with
  | nil => simp
  | cons p r' ih =>
    simp only [List.map_cons, List.enumFrom_cons, List.foldl_cons, List.nodup_cons] at hnodup ⊢
    have hv0 : vsFull.getD n [] = p.snd := by
      have := hvals 0
      simpa using this
    rw [hv0]
    rw [jsObjSet_fresh acc p.fst (Json.str p.snd)
      (fun q hq => hfresh q hq p.fst (by simp))]
    have ihr := ih (n + 1) hnodup.2 ?hv (acc ++ [(p.fst, Json.str p.snd)]) ?hf
    case hv =>
      intro i
      have := hvals (i + 1)
      rw [show n + (i + 1) = n + 1 + i by omega] at this
      simpa using this
    case hf =>
      intro q hq k hk
      rcases List.mem_append.mp hq with hq2 | hq2
      · exact hfresh q hq2 k (List.mem_cons_of_mem _ hk)
      · simp at hq2
        subst hq2
        exact fun hc => hnodup.1 (hc ▸ hk)
    rw [ihr]
    simp

theorem buildCSVRow_eq (r : List (Str × Str)) (hnodup : (r.map Prod.fst).Nodup) :
    buildCSVRow (r.map Prod.fst) (r.map Prod.snd) = rowToJson r := by
  unfold buildCSVRow rowToJson
  rw [show (r.map Prod.fst).enum = List.enumFrom 0 (r.map Prod.fst) from rfl]
  rw [buildCSVRow_foldl r 0 (r.map Prod.snd) hnodup (fun i => by simp) [] (by simp)]
  rfl


theorem getLastD_mem {α : Type} (ls : List α) (d : α) (h : ls ≠ []) :
    ls.getLastD d ∈ ls := by
  rw [List.getLastD_eq_getLast?, List.getLast?_eq_getLast ls h]
  simp only [Option.getD_some]
  exact List.getLast_mem h

theorem flatMap_congr_mem {α β : Type} (l : List α) (f g : α → List β)
    (h : ∀ a ∈ l, f a = g a) : l.flatMap f = l.flatMap g := by
  induction l with
  | nil => rfl
  | cons a l ih =>
    simp only [List.flatMap_cons]
    rw [h a (by simp), ih (fun x hx => h x (List.mem_cons_of_mem a hx))]

/-- Joining newline-terminated lines equals the newline-intercalation of the
lines followed by one final newline. -/
theorem join_lines_map {α : Type} (hd : Str) (data : List α) (F : α → Str) :
    (hd ++ ['\n']) ++ data.flatMap (fun r => F r ++ ['\n'])
      = List.intercalate ['\n'] (hd :: data.map F) ++ ['\n'] := by
  induction data generalizing hd with
  | nil => simp [intercalate_one]
  | cons r rest ih =>
    simp only [List.map_cons, List.flatMap_cons]
    rw [intercalate_cons2, ih (F r)]
    simp

/-- A comma-joined line of clean cells is non-empty, has non-whitespace edge
characters, and contains no newline. -/
theorem cleanLine_of_cells (cells : List Str) (hne : cells ≠ [])
    (hc : ∀ x ∈ cells, cleanCSVField x = true) :
    List.intercalate [','] cells ≠ []
      ∧ isWSChar ((List.intercalate [','] cells).headD ' ') = false
      ∧ isWSChar ((List.intercalate [','] cells).getLastD ' ') = false
      ∧ '\n' ∉ List.intercalate [','] cells := by
  have hcellne : ∀ x ∈ cells, x ≠ [] := fun x hx => (cleanCSVField_spec (hc x hx)).1
  refine ⟨intercalate_ne_nil ',' cells hne hcellne, ?_, ?_, ?_⟩
  · obtain ⟨c0, rest, rfl⟩ := List.exists_cons_of_ne_nil hne
    rw [intercalate_headD ',' c0 rest (hcellne c0 (by simp))]
    exact (cleanCSVField_spec (hc c0 (by simp))).2.2.1
  · rw [List.getLastD_eq_getLast?, intercalate_getLast? ',' cells hne hcellne,
      ← List.getLastD_eq_getLast?]
    exact (cleanCSVField_spec (hc _ (getLastD_mem cells [] hne))).2.2.2
  · intro hmem
    rcases mem_intercalate hmem with hc2 | ⟨l, hl, hxl⟩
    · exact absurd hc2 (by decide)
    · exact ((cleanCSVField_spec (hc l hl)).2.1 '\n' hxl).2.2.1 rfl

/-- Characterization of `generateCSV` on a non-empty row set with a shared
clean key set and clean values: the newline-intercalation of the header line
and one comma-joined line per row, with a final newline. -/
theorem generateCSV_eq (data : List (List (Str × Str))) (K : List Str)
    (hne : data ≠ []) (hK : K ≠ []) (hnodup : K.Nodup)
    (hkeys : ∀ r ∈ data, r.map Prod.fst = K)
    (hkc : ∀ k ∈ K, cleanCSVField k = true)
    (hvc : ∀ r ∈ data, ∀ p ∈ r, cleanCSVField p.snd = true) :
    generateCSV data
      = List.intercalate ['\n']
          (List.intercalate [','] K
            :: data.map (fun r => List.intercalate [','] (r.map Prod.snd))) ++ ['\n'] := by
  unfold generateCSV
  rw [if_neg (by simp [List.isEmpty_iff, hne])]
  have hcols : columnsUnion data = K := columnsUnion_const data K hnodup hkeys hne
  dsimp only
  rw [hcols]
  rw [if_neg (by simp [List.isEmpty_iff, hK])]
  rw [map_eq_self_of_eq K escapeCSVField (fun k hk => escapeCSVField_clean (hkc k hk))]
  have hrow : ∀ r ∈ data,
      List.intercalate [','] ((csvRowCells K r).map escapeCSVField) ++ ['\n']
        = List.intercalate [','] (r.map Prod.snd) ++ ['\n'] := by
    intro r hr
    have hcells : csvRowCells K r = r.map Prod.snd := by
      rw [← hkeys r hr]
      exact csvRowCells_eq_values r (by rw [hkeys r hr]; exact hnodup)
    rw [hcells, map_eq_self_of_eq (r.map Prod.snd) escapeCSVField ?hesc]
    case hesc =>
      intro v hv
      rw [List.mem_map] at hv
      obtain ⟨p, hp, rfl⟩ := hv
      exact escapeCSVField_clean (hvc r hr p hp)
  rw [flatMap_congr_mem data _ _ hrow]
  exact join_lines_map (List.intercalate [','] K) data
    (fun r => List.intercalate [','] (r.map Prod.snd))

/-- Trimming the generated CSV and splitting on newlines recovers exactly the
header line followed by one line per row. -/
theorem parseCSV_lines (data : List (List (Str × Str))) (K : List Str)
    (hne : data ≠ []) (hK : K ≠ []) (hnodup : K.Nodup)
    (hkeys : ∀ r ∈ data, r.map Prod.fst = K)
    (hkc : ∀ k ∈ K, cleanCSVField k = true)
    (hvc : ∀ r ∈ data, ∀ p ∈ r, cleanCSVField p.snd = true) :
    (trimChars (generateCSV data)).splitOn '\n'
      = List.intercalate [','] K
          :: data.map (fun r => List.intercalate [','] (r.map Prod.snd)) := by
  have hlineclean : ∀ l ∈ List.intercalate [','] K
      :: data.map (fun r => List.intercalate [','] (r.map Prod.snd)),
      l ≠ [] ∧ isWSChar (l.headD ' ') = false
        ∧ isWSChar (l.getLastD ' ') = false ∧ '\n' ∉ l := by
    intro l hl
    rcases List.mem_cons.mp hl with rfl | hl2
    · exact cleanLine_of_cells K hK hkc
    · rw [List.mem_map] at hl2
      obtain ⟨r, hr, rfl⟩ := hl2
      have hrne : r ≠ [] := by
        intro hc
        apply hK
        rw [← hkeys r hr, hc]
        rfl
      refine cleanLine_of_cells (r.map Prod.snd) (by simpa using hrne) ?_
      intro v hv
      rw [List.mem_map] at hv
      obtain ⟨p, hp, rfl⟩ := hv
      exact hvc r hr p hp
  have hlnil : ∀ l ∈ List.intercalate [','] K
      :: data.map (fun r => List.intercalate [','] (r.map Prod.snd)), l ≠ [] :=
    fun l hl => (hlineclean l hl).1
  have hallne : (List.intercalate [','] K
      :: data.map (fun r => List.intercalate [','] (r.map Prod.snd))) ≠ [] := by simp
  rw [generateCSV_eq data K hne hK hnodup hkeys hkc hvc]
  rw [trimChars_append_ws _ '\n' (by decide)]
  rw [trimChars_eq_self _ (intercalate_ne_nil '\n' _ hallne hlnil) ?hh ?hl]
  case hh =>
    rw [intercalate_headD '\n' _ _ (hlnil _ (by simp))]
    exact (hlineclean _ (by simp)).2.1
  case hl =>
    rw [List.getLastD_eq_getLast?, intercalate_getLast? '\n' _ hallne hlnil,
      ← List.getLastD_eq_getLast?]
    exact (hlineclean _ (getLastD_mem _ [] hallne)).2.2.1
  exact List.splitOn_intercalate _ '\n' (fun l hl => (hlineclean l hl).2.2.2) hallne


/-- Claim C9 (corrected): for every non-empty sequence of row-maps that share
one duplicate-free key list and whose keys and values are non-empty, free of
commas, double quotes and line breaks, and neither start nor end with
whitespace, rendering with `generateCSV` and parsing the result back with
`parseCSVToJSON` reproduces the original row-maps. -/
theorem C9_csv_roundtrip (data : List (List (Str × Str))) (K : List Str)
    (hne : data ≠ []) (hK : K ≠ []) (hnodup : K.Nodup)
    (hkeys : ∀ r ∈ data, r.map Prod.fst = K)
    (hkc : ∀ k ∈ K, cleanCSVField k = true)
    (hvc : ∀ r ∈ data, ∀ p ∈ r, cleanCSVField p.snd = true) :
    parseCSVToJSON (generateCSV data) = data.map rowToJson := by
  have hhdr : ((List.intercalate [','] K).splitOn ',').map dequoteTrim = K := by
    rw [List.splitOn_intercalate _ ',' (fun k hk hmem =>
      ((cleanCSVField_spec (hkc k hk)).2.1 ',' hmem).1 rfl) hK]
    exact map_eq_self_of_eq K dequoteTrim (fun k hk => dequoteTrim_clean (hkc k hk))
  have hmain : ∀ rows : List (List (Str × Str)), (∀ r ∈ rows, r.map Prod.fst = K) →
      (∀ r ∈ rows, ∀ p ∈ r, cleanCSVField p.snd = true) →
      (rows.map (fun r => List.intercalate [','] (r.map Prod.snd))).map
          (fun l => buildCSVRow K ((l.splitOn ',').map dequoteTrim))
        = rows.map rowToJson := by
    intro rows h1 h2
    rw [List.map_map]
    apply List.map_congr_left
    intro r hr
    show buildCSVRow K
        (((List.intercalate [','] (r.map Prod.snd)).splitOn ',').map dequoteTrim)
      = rowToJson r
    have hrne : r ≠ [] := by
      intro hc
      apply hK
      rw [← h1 r hr, hc]
      rfl
    have hsp : (List.intercalate [','] (r.map Prod.snd)).splitOn ',' = r.map Prod.snd := by
      refine List.splitOn_intercalate _ ',' ?_ (by simpa using hrne)
      intro v hv hmem
      rw [List.mem_map] at hv
      obtain ⟨p, hp, rfl⟩ := hv
      exact ((cleanCSVField_spec (h2 r hr p hp)).2.1 ',' hmem).1 rfl
    rw [hsp, map_eq_self_of_eq (r.map Prod.snd) dequoteTrim ?hdq, ← h1 r hr]
    case hdq =>
      intro v hv
      rw [List.mem_map] at hv
      obtain ⟨p, hp, rfl⟩ := hv
      exact dequoteTrim_clean (h2 r hr p hp)
    exact buildCSVRow_eq r (by rw [h1 r hr]; exact hnodup)
  unfold parseCSVToJSON
  rw [parseCSV_lines data K hne hK hnodup hkeys hkc hvc]
  cases data with
  | nil => exact absurd rfl hne
  | cons r0 data' =>
    show ((r0 :: data').map (fun r => List.intercalate [','] (r.map Prod.snd))).map
        (fun l => buildCSVRow (((List.intercalate [','] K).splitOn ',').map dequoteTrim)
          ((l.splitOn ',').map dequoteTrim))
      = (r0 :: data').map rowToJson
    rw [hhdr]
    exact hmain (r0 :: data') hkeys hvc

/-- Claim C9 counterexample: the row set `[\x7b a: "" \x7d]` satisfies the
claim as stated (no commas, quotes or newlines in keys or values), yet the
generated CSV `a\n\n` trims and parses back to `[]`, not to the original
single row-map: an empty value breaks the round trip. -/
theorem C9_counterexample_empty_value :
    (∀ r ∈ c9Rows, ∀ p ∈ r,
        ∀ c ∈ p.fst ++ p.snd, c ≠ ',' ∧ c ≠ '"' ∧ c ≠ '\n')
      ∧ c9Rows ≠ []
      ∧ generateCSV c9Rows = "a\n\n".toList
      ∧ parseCSVToJSON (generateCSV c9Rows) ≠ c9Rows.map rowToJson :=
  ⟨by decide, by decide, rfl,
    fun h => absurd (congrArg List.length h) (by decide)⟩

/-- Concrete round trip: two rows over the key set `[a, b]` survive
`generateCSV` followed by `parseCSVToJSON` unchanged. -/
theorem C9_csv_roundtrip_witness :
    parseCSVToJSON (generateCSV
        [[("a".toList, "1".toList), ("b".toList, "x y".toList)],
         [("a".toList, "2".toList), ("b".toList, "w".toList)]])
      = [[("a".toList, "1".toList), ("b".toList, "x y".toList)],
         [("a".toList, "2".toList), ("b".toList, "w".toList)]].map rowToJson :=
  C9_csv_roundtrip
    [[("a".toList, "1".toList), ("b".toList, "x y".toList)],
     [("a".toList, "2".toList), ("b".toList, "w".toList)]]
    ["a".toList, "b".toList]
    (by decide) (by decide) (by decide) (by decide) (by decide) (by decide)

end CortexBot
